import Mathlib

/-!
Verification of the geometry / landmass-generation core of the
glt-mc-generator repository, as a shallow embedding in Lean.

Rust machine integers (i32 / i64 / isize / u32 / usize) are modelled as
Int or Nat: the modelled operations are comparisons, min / max, addition
and subtraction, whose overflow cases are guarded in the source by
checked arithmetic that aborts (a panic, not a wrap).  Code paths that
panic are noted at the definition they concern.
-/

/-- Integer 2-vector, modelling glam IVec2 / I64Vec2. -/
structure Vec2 where
  x : Int
  y : Int
deriving DecidableEq, Repr

/-- Integer 3-vector, modelling glam IVec3 / I64Vec3. -/
structure Vec3 where
  x : Int
  y : Int
  z : Int
deriving DecidableEq, Repr

/-- Componentwise minimum (glam IVec2::min). -/
def Vec2.cmin (a b : Vec2) : Vec2 := ⟨Min.min a.x b.x, Min.min a.y b.y⟩

/-- Componentwise maximum (glam IVec2::max). -/
def Vec2.cmax (a b : Vec2) : Vec2 := ⟨Max.max a.x b.x, Max.max a.y b.y⟩

/-- Componentwise minimum (glam IVec3::min). -/
def Vec3.cmin (a b : Vec3) : Vec3 := ⟨Min.min a.x b.x, Min.min a.y b.y, Min.min a.z b.z⟩

/-- Componentwise maximum (glam IVec3::max). -/
def Vec3.cmax (a b : Vec3) : Vec3 := ⟨Max.max a.x b.x, Max.max a.y b.y, Max.max a.z b.z⟩

/-- glam Vec2::extend: append a z component. -/
def Vec2.extend (v : Vec2) (z : Int) : Vec3 := ⟨v.x, v.y, z⟩

/-- glam Vec3::truncate: drop the z component. -/
def Vec3.truncate (v : Vec3) : Vec2 := ⟨v.x, v.y⟩

instance : Add Vec2 := ⟨fun a b => ⟨a.x + b.x, a.y + b.y⟩⟩

instance : Sub Vec2 := ⟨fun a b => ⟨a.x - b.x, a.y - b.y⟩⟩

/-- The free function contains in kettenkrad geometry.rs: value >= min && value <= max. -/
def intContains (value lo hi : Int) : Bool := decide (lo ≤ value) && decide (value ≤ hi)

/-- axis_overlapping from kettenkrad geometry.rs, one axis at a time:
contains(b1.min, b2.min, b2.max) || contains(b2.min, b1.min, b1.max). -/
def axisOverlapping (min1 max1 min2 max2 : Int) : Bool :=
  intContains min1 min2 max2 || intContains min2 min1 max1

namespace KK

/-- kettenkrad BoundingBox2 (BoundingBox over I64Vec2). -/
structure BoundingBox2 where
  min : Vec2
  max : Vec2
deriving DecidableEq, Repr

/-- kettenkrad BoundingBox3 (BoundingBox over I64Vec3). -/
structure BoundingBox3 where
  min : Vec3
  max : Vec3
deriving DecidableEq, Repr

/-- BoundingBox2::new: normalizes the corner order. -/
def BoundingBox2.new (p1 p2 : Vec2) : BoundingBox2 := ⟨Vec2.cmin p1 p2, Vec2.cmax p1 p2⟩

/-- BoundingBox2::union. -/
def BoundingBox2.union (a b : BoundingBox2) : BoundingBox2 :=
  ⟨Vec2.cmin a.min b.min, Vec2.cmax a.max b.max⟩

/-- BoundingBox2::contains. -/
def BoundingBox2.contains (b : BoundingBox2) (pos : Vec2) : Bool :=
  intContains pos.x b.min.x b.max.x && intContains pos.y b.min.y b.max.y

/-- BoundingBox2::intersects_with. -/
def BoundingBox2.intersects_with (a b : BoundingBox2) : Bool :=
  axisOverlapping a.min.x a.max.x b.min.x b.max.x &&
  axisOverlapping a.min.y a.max.y b.min.y b.max.y

/-- BoundingBox2::intersect. -/
def BoundingBox2.intersect (a b : BoundingBox2) : Option BoundingBox2 :=
  if a.intersects_with b then
    some ⟨Vec2.cmax a.min b.min, Vec2.cmin a.max b.max⟩
  else
    none

/-- BoundingBox2::extend: sorts the two z bounds, then extends min and max. -/
def BoundingBox2.extend (b : BoundingBox2) (zmin zmax : Int) : BoundingBox3 :=
  ⟨b.min.extend (Min.min zmin zmax), b.max.extend (Max.max zmin zmax)⟩

/-- BoundingBox3::new: normalizes the corner order. -/
def BoundingBox3.new (p1 p2 : Vec3) : BoundingBox3 := ⟨Vec3.cmin p1 p2, Vec3.cmax p1 p2⟩

/-- BoundingBox3::union. -/
def BoundingBox3.union (a b : BoundingBox3) : BoundingBox3 :=
  ⟨Vec3.cmin a.min b.min, Vec3.cmax a.max b.max⟩

/-- BoundingBox3::contains. -/
def BoundingBox3.contains (b : BoundingBox3) (pos : Vec3) : Bool :=
  intContains pos.x b.min.x b.max.x &&
  intContains pos.y b.min.y b.max.y &&
  intContains pos.z b.min.z b.max.z

/-- BoundingBox3::intersects_with. -/
def BoundingBox3.intersects_with (a b : BoundingBox3) : Bool :=
  axisOverlapping a.min.x a.max.x b.min.x b.max.x &&
  axisOverlapping a.min.y a.max.y b.min.y b.max.y &&
  axisOverlapping a.min.z a.max.z b.min.z b.max.z

/-- BoundingBox3::intersect. -/
def BoundingBox3.intersect (a b : BoundingBox3) : Option BoundingBox3 :=
  if a.intersects_with b then
    some ⟨Vec3.cmax a.min b.min, Vec3.cmin a.max b.max⟩
  else
    none

/-- BoundingBox3::truncate. -/
def BoundingBox3.truncate (b : BoundingBox3) : BoundingBox2 := ⟨b.min.truncate, b.max.truncate⟩

/-- BoundingBox3::crop: intersect the horizontal footprint, keep the z extents. -/
def BoundingBox3.crop (b : BoundingBox3) (r : BoundingBox2) : Option BoundingBox3 :=
  (b.truncate.intersect r).map (fun bb => bb.extend b.min.z b.max.z)

/-- The kettenkrad Geometry capability: an advertised optional bounding box
plus a boolean membership predicate. -/
structure Geometry where
  bounding_box : Option BoundingBox3
  block_at : Vec3 → Bool

/-- The kettenkrad MaterialGeometry capability: a Geometry together with a
per-point optional material. -/
structure MaterialGeometry (B : Type) extends Geometry where
  block_material_at : Vec3 → Option B

/-- A bounding box treated as an ordinary geometry: membership is box
containment (this is the reading the spec gives to the generic Mask path
when the mask is itself a box). -/
def BoundingBox3.toGeometry (b : BoundingBox3) : Geometry :=
  ⟨some b, fun pos => b.contains pos⟩

/-- A 2D bounding box treated as an ordinary geometry: membership tests
only x and y, against the rectangle. -/
def BoundingBox2.toGeometry (b : BoundingBox2) : Geometry :=
  ⟨none, fun pos => b.contains pos.truncate⟩

/-- Generic Mask block_at (mask.rs, impl Geometry for Mask with any mask M):
mask.block_at(pos) && geometry.block_at(pos). -/
def maskBlockAt (g m : Geometry) (pos : Vec3) : Bool :=
  m.block_at pos && g.block_at pos

/-- Generic Mask block_material_at (mask.rs, impl MaterialGeometry for Mask):
the inner material when the mask holds, None otherwise. -/
def maskBlockMaterialAt {B : Type} (g : MaterialGeometry B) (m : Geometry) (pos : Vec3) : Option B :=
  if m.block_at pos then g.block_material_at pos else none

/-- Generic Mask bounding_box: intersection of the two advertised boxes. -/
def maskBoundingBox (g m : Geometry) : Option BoundingBox3 := do
  let bm ← m.bounding_box
  let bg ← g.bounding_box
  bm.intersect bg

/-- Mask specialized to a BoundingBox2 mask, block_at: defers to the inner
geometry without testing the rectangle. -/
def maskBox2BlockAt (g : Geometry) (_m : BoundingBox2) (pos : Vec3) : Bool :=
  g.block_at pos

/-- Mask specialized to a BoundingBox2 mask, block_material_at. -/
def maskBox2BlockMaterialAt {B : Type} (g : MaterialGeometry B) (_m : BoundingBox2) (pos : Vec3) : Option B :=
  g.block_material_at pos

/-- Mask specialized to a BoundingBox2 mask, bounding_box: crops the inner
box to the rectangle. -/
def maskBox2BoundingBox (g : Geometry) (m : BoundingBox2) : Option BoundingBox3 :=
  g.bounding_box.bind (fun bb => bb.crop m)

/-- Mask specialized to a BoundingBox3 mask, block_at: defers to the inner
geometry without testing the box. -/
def maskBox3BlockAt (g : Geometry) (_m : BoundingBox3) (pos : Vec3) : Bool :=
  g.block_at pos

/-- Mask specialized to a BoundingBox3 mask, block_material_at. -/
def maskBox3BlockMaterialAt {B : Type} (g : MaterialGeometry B) (_m : BoundingBox3) (pos : Vec3) : Option B :=
  g.block_material_at pos

/-- Mask specialized to a BoundingBox3 mask, bounding_box: intersects the
inner box with the mask box. -/
def maskBox3BoundingBox (g : Geometry) (m : BoundingBox3) : Option BoundingBox3 :=
  g.bounding_box.bind (fun bb => bb.intersect m)

end KK

namespace Gen

/-- The generation-side BoundingBox (generation.rs): two IVec3 corners. -/
structure BoundingBox where
  min : Vec3
  max : Vec3
deriving DecidableEq, Repr

/-- BoundingBox::new (generation.rs): normalizes the corner order. -/
def BoundingBox.new (a b : Vec3) : BoundingBox := ⟨Vec3.cmin a b, Vec3.cmax a b⟩

/-- BoundingBox::join (generation.rs): componentwise min of mins, max of maxes. -/
def BoundingBox.join (a b : BoundingBox) : BoundingBox :=
  ⟨Vec3.cmin a.min b.min, Vec3.cmax a.max b.max⟩

/-- Modelled from the spec: BoundingBox::contains, the inclusive per-axis
range test of spec section 4.1.  The method is called by union_threaded.rs
but its definition is not among the provided generation.rs sources; the
identically-shaped kettenkrad BoundingBox3::contains is in mask.rs's crate. -/
def BoundingBox.contains (b : BoundingBox) (pos : Vec3) : Bool :=
  intContains pos.x b.min.x b.max.x &&
  intContains pos.y b.min.y b.max.y &&
  intContains pos.z b.min.z b.max.z

/-- The generation Geometry capability (generation.rs): bounding box (not
optional on this side) plus boolean membership. -/
structure Geometry where
  bounding_box : BoundingBox
  block_at : Vec3 → Bool

/-- The generation MaterialGeometry capability. -/
structure MaterialGeometry (B : Type) extends Geometry where
  block_material_at : Vec3 → Option B

/-- LimitBounds (limit_bounds.rs): a geometry with its advertised bounding
box clipped to a horizontal rectangle. -/
structure LimitBounds (B : Type) where
  geometry : MaterialGeometry B
  bounds_min : Vec2
  bounds_max : Vec2

/-- LimitBounds::bounding_box: clamp the x and y extents of the inner box
to the rectangle, leave z untouched (no re-sorting of corners). -/
def LimitBounds.bounding_box {B : Type} (l : LimitBounds B) : BoundingBox :=
  let bb := l.geometry.bounding_box
  ⟨⟨Max.max bb.min.x l.bounds_min.x, Max.max bb.min.y l.bounds_min.y, bb.min.z⟩,
   ⟨Min.min bb.max.x l.bounds_max.x, Min.min bb.max.y l.bounds_max.y, bb.max.z⟩⟩

/-- LimitBounds::block_at: defers to the inner geometry, with no test
against the rectangle. -/
def LimitBounds.block_at {B : Type} (l : LimitBounds B) (pos : Vec3) : Bool :=
  l.geometry.block_at pos

/-- LimitBounds::block_material_at: defers to the inner geometry. -/
def LimitBounds.block_material_at {B : Type} (l : LimitBounds B) (pos : Vec3) : Option B :=
  l.geometry.block_material_at pos

/-- Pillar (pillar.rs): a vertical cylinder of a given radius between two
heights. -/
structure Pillar where
  min_height : Int
  max_height : Int
  origin : Vec2
  radius : Nat
deriving DecidableEq, Repr

/-- Pillar::bounding_box: horizontal margin of radius + 1 around the
origin, exact height range. -/
def Pillar.bounding_box (p : Pillar) : BoundingBox :=
  let o : Vec2 := ⟨(p.radius : Int) + 1, (p.radius : Int) + 1⟩
  BoundingBox.new ((p.origin - o).extend p.min_height) ((p.origin + o).extend p.max_height)

/-- Pillar::block_at.  The source compares the f32 Euclidean distance from
the origin against radius + 0.5; both sides are exact here, so the
comparison is modelled exactly over the integers by squaring:
dist <= radius + 0.5 iff 4 * dist^2 <= (2 * radius + 1)^2. -/
def Pillar.block_at (p : Pillar) (pos : Vec3) : Bool :=
  decide (p.min_height ≤ pos.z) && decide (pos.z ≤ p.max_height) &&
  decide (4 * ((pos.x - p.origin.x)^2 + (pos.y - p.origin.y)^2) ≤ (2 * (p.radius : Int) + 1)^2)

/-- UnionThreaded bounding_box (union_threaded.rs, Vec impl): the join of
all children's boxes, None (an unwrap panic in the source) when the child
collection is empty. -/
def unionBoundingBox {B : Type} (gs : List (MaterialGeometry B)) : Option BoundingBox :=
  match gs.map (fun g => g.bounding_box) with
  | [] => none
  | b :: bs => some (bs.foldl BoundingBox.join b)

/-- UnionThreaded::block_at (union_threaded.rs): O(1) pre-rejection against
the cached union box, then any child matches.  The source's parallel any is
modelled by the sequential any it is specified to agree with; the empty
collection (where the source panics computing the box) yields false. -/
def unionThreadedBlockAt {B : Type} (gs : List (MaterialGeometry B)) (pos : Vec3) : Bool :=
  match unionBoundingBox gs with
  | some bb => bb.contains pos && gs.any (fun g => g.block_at pos)
  | none => false

/-- UnionThreaded::block_material_at (union_threaded.rs): pre-rejection
against the cached union box, then the first child material in declaration
order (find_map_first re-imposes index order). -/
def unionThreadedBlockMaterialAt {B : Type} (gs : List (MaterialGeometry B)) (pos : Vec3) : Option B :=
  match unionBoundingBox gs with
  | some bb =>
    if bb.contains pos then gs.findSome? (fun g => g.block_material_at pos) else none
  | none => none

/-- The naive sequential union over the same children (union.rs, Vec impl):
any child matches. -/
def unionBlockAt {B : Type} (gs : List (MaterialGeometry B)) (pos : Vec3) : Bool :=
  gs.any (fun g => g.block_at pos)

/-- The naive sequential union material (union.rs, Vec impl): first
non-absent material in declaration order. -/
def unionBlockMaterialAt {B : Type} (gs : List (MaterialGeometry B)) (pos : Vec3) : Option B :=
  gs.findSome? (fun g => g.block_material_at pos)

end Gen

/-- Iterate a function n times: models a Rust for-loop of n iterations of a
single statement. -/
def applyN {α : Type _} (f : α → α) : Nat → α → α
  | 0, a => a
  | n + 1, a => applyN f n (f a)

namespace SG

/-- The sparse grid of utility/grid.rs: a VecDeque of rows (each a VecDeque
of optional cells), a column count, and a signed offset of the window.
VecDeques are modelled as lists (push_front conses, push_back appends). -/
structure Grid (T : Type) where
  rows : List (List (Option T))
  columns : Nat
  offset : Vec2

/-- Grid::new: a 1 times 1 window holding a single empty cell, zero offset. -/
def Grid.new (T : Type) : Grid T := ⟨[[none]], 1, ⟨0, 0⟩⟩

/-- Grid::width. -/
def Grid.width {T : Type} (g : Grid T) : Nat := g.columns

/-- Grid::height. -/
def Grid.height {T : Type} (g : Grid T) : Nat := g.rows.length

/-- Grid::pos: convert an absolute position to window indexes, None when
outside the window.  The source's overflow-checked subtractions abort on
overflow, which cannot happen over Int. -/
def Grid.pos {T : Type} (g : Grid T) (p : Vec2) : Option (Nat × Nat) :=
  let x := p.x - g.offset.x
  let y := p.y - g.offset.y
  if x < 0 ∨ y < 0 then none
  else if x.toNat < g.width ∧ y.toNat < g.height then some (x.toNat, y.toNat)
  else none

/-- Grid::oob: per-axis measurement of how far a position lies outside the
window (0 when inside). -/
def Grid.oob {T : Type} (g : Grid T) (p : Vec2) : Int × Int :=
  let x := p.x - g.offset.x
  let y := p.y - g.offset.y
  let w : Int := g.width
  let h : Int := g.height
  (if x < 0 then x else if x ≥ w then x - w + 1 else 0,
   if y < 0 then y else if y ≥ h then y - h + 1 else 0)

/-- Grid::min: the low corner of the window. -/
def Grid.min {T : Type} (g : Grid T) : Vec2 := g.offset

/-- Grid::max: the high corner of the window. -/
def Grid.max {T : Type} (g : Grid T) : Vec2 :=
  ⟨(g.width : Int) + g.offset.x - 1, (g.height : Int) + g.offset.y - 1⟩

/-- Grid::get: read the cell at a position, None when out of the window or
empty. -/
def Grid.get {T : Type} (g : Grid T) (p : Vec2) : Option T :=
  match g.pos p with
  | none => none
  | some (x, y) => ((g.rows.get? y).bind (fun row => row.get? x)).join

/-- Write the window cell at indexes (x, y). -/
def setCell {T : Type} (rows : List (List (Option T))) (x y : Nat) (v : T) : List (List (Option T)) :=
  rows.set y (((rows.get? y).getD []).set x (some v))

/-- Grid::put: write within the current window only; the Bool reports
whether the position was in bounds, and an out-of-bounds write leaves the
grid untouched. -/
def Grid.put {T : Type} (g : Grid T) (p : Vec2) (v : T) : Bool × Grid T :=
  match g.pos p with
  | some (x, y) => (true, { g with rows := setCell g.rows x y v })
  | none => (false, g)

/-- Grid::push_rows_back: append an empty row. -/
def Grid.push_rows_back {T : Type} (g : Grid T) : Grid T :=
  { g with rows := g.rows ++ [List.replicate g.width none] }

/-- Grid::push_rows_front: prepend an empty row, decrementing the y offset. -/
def Grid.push_rows_front {T : Type} (g : Grid T) : Grid T :=
  { g with offset := ⟨g.offset.x, g.offset.y - 1⟩,
           rows := List.replicate g.width none :: g.rows }

/-- Grid::push_columns_back: append an empty cell to every row. -/
def Grid.push_columns_back {T : Type} (g : Grid T) : Grid T :=
  { g with columns := g.columns + 1, rows := g.rows.map (fun row => row ++ [none]) }

/-- Grid::push_columns_front: prepend an empty cell to every row,
decrementing the x offset. -/
def Grid.push_columns_front {T : Type} (g : Grid T) : Grid T :=
  { g with columns := g.columns + 1, offset := ⟨g.offset.x - 1, g.offset.y⟩,
           rows := g.rows.map (fun row => none :: row) }

/-- Grid::expand_to_include: grow the window (x axis first, then y) until
the position is inside it. -/
def Grid.expand_to_include {T : Type} (g : Grid T) (p : Vec2) : Grid T :=
  let o := g.oob p
  let g1 :=
    if o.1 > 0 then applyN Grid.push_columns_back o.1.toNat g
    else if o.1 < 0 then applyN Grid.push_columns_front (-o.1).toNat g
    else g
  if o.2 > 0 then applyN Grid.push_rows_back o.2.toNat g1
  else if o.2 < 0 then applyN Grid.push_rows_front (-o.2).toNat g1
  else g1

/-- Grid::put_expand: grow the window to cover the position, then write.
After the expansion the position is always in the window; the source marks
the other branch unreachable. -/
def Grid.put_expand {T : Type} (g : Grid T) (p : Vec2) (v : T) : Grid T :=
  let g' := g.expand_to_include p
  match g'.pos p with
  | some (x, y) => { g' with rows := setCell g'.rows x y v }
  | none => g'

/-- A sequence of put_expand writes, in order. -/
def Grid.put_expand_all {T : Type} (g : Grid T) (ws : List (Vec2 × T)) : Grid T :=
  ws.foldl (fun g pv => g.put_expand pv.1 pv.2) g

/-- Well-formedness of the window: every row has exactly columns cells
(maintained by every Grid operation; Grid::width reads the stored count). -/
def Grid.WF {T : Type} (g : Grid T) : Prop :=
  ∀ row ∈ g.rows, row.length = g.columns

instance {T : Type} (g : Grid T) : Decidable (Grid.WF g) := by
  unfold Grid.WF; infer_instance

end SG

/-- cardinal4 (utility.rs): the four 4-connected neighbours of a point, in
the CARDINAL4 offset order. -/
def cardinal4 (c : Vec2) : List Vec2 :=
  [⟨c.x + 1, c.y⟩, ⟨c.x, c.y + 1⟩, ⟨c.x - 1, c.y⟩, ⟨c.x, c.y - 1⟩]

namespace LM

/-- The phase-1 discovery state of a cell in discover (landmass_shape.rs). -/
inductive Value where
  | Present
  | Boundary
  | BoundaryFinal (index : Nat)
deriving DecidableEq, Repr

/-- Modelled from the spec: the external SparseGrid used by discover, seen
through its observable interface (spec section 3: a cell absent from the
window and a cell present-but-None are the same observable state).  The
grid is the total map from coordinates to optional values; put always
lands (write-triggered bound expansion never fails). -/
def SparseMap : Type := Vec2 → Option Value

/-- SparseGrid::new, observably: everything absent. -/
def SparseMap.empty : SparseMap := fun _ => none

/-- SparseGrid::put, observably: write one cell. -/
def SparseMap.put (g : SparseMap) (pos : Vec2) (v : Value) : SparseMap :=
  fun c => if c = pos then some v else g c

/-- The neighbour-enqueueing inner loop of phase 1 of discover: push each
candidate that is neither already discovered nor already queued. -/
def enqueue (g : SparseMap) (q : List Vec2) (cs : List Vec2) : List Vec2 :=
  cs.foldl (fun q c => if g c = none ∧ c ∉ q then q ++ [c] else q) q

/-- Phase 1 of discover (landmass_shape.rs): breadth-first flood fill of
the noise field from the queue.  A popped cell sampling positive is marked
Present and expands to its 4-connected neighbours; otherwise it is marked
Boundary and not expanded.  The noise comparison value > 0.0 is abstracted
as the opaque Bool-valued field f.  Fuel bounds the number of pops; the
result is the grid together with the part of the queue left unprocessed. -/
def bfs (f : Vec2 → Bool) : Nat → List Vec2 → SparseMap → SparseMap × List Vec2
  | 0, q, g => (g, q)
  | _ + 1, [], g => (g, [])
  | fuel + 1, pos :: rest, g =>
    if f pos then
      let g' := g.put pos .Present
      bfs f fuel (enqueue g' rest (cardinal4 pos)) g'
    else
      bfs f fuel rest (g.put pos .Boundary)

/-- 4-connected reachability from the origin through cells where the field
is positive (every cell of the path, endpoints included, is positive). -/
inductive ReachPos (f : Vec2 → Bool) : Vec2 → Prop where
  | origin : f ⟨0, 0⟩ = true → ReachPos f ⟨0, 0⟩
  | step {c d : Vec2} : ReachPos f c → d ∈ cardinal4 c → f d = true → ReachPos f d

/-- The loop invariant of phase 1 of discover, over the queue and the
grid: the queue is duplicate-free and holds only undiscovered cells that
are the origin or neighbours of a Present cell; Present cells are exactly
positive cells reached through positive cells; Boundary cells are
non-positive and neighbour a Present cell (or are the origin); no
BoundaryFinal value exists yet; every neighbour of a Present cell is
discovered or queued; and the origin is queued or discovered. -/
structure Inv (f : Vec2 → Bool) (q : List Vec2) (g : SparseMap) : Prop where
  nodup : q.Nodup
  fresh : ∀ c ∈ q, g c = none
  src : ∀ c ∈ q, c = (⟨0, 0⟩ : Vec2) ∨ ∃ d, c ∈ cardinal4 d ∧ g d = some .Present
  present : ∀ c, g c = some .Present → ReachPos f c
  boundary : ∀ c, g c = some .Boundary →
    f c = false ∧ ((∃ d, d ∈ cardinal4 c ∧ g d = some .Present) ∨ c = (⟨0, 0⟩ : Vec2))
  nofinal : ∀ c i, g c ≠ some (.BoundaryFinal i)
  closed : ∀ c, g c = some .Present → ∀ d ∈ cardinal4 c, g d ≠ none ∨ d ∈ q
  originIn : (⟨0, 0⟩ : Vec2) ∈ q ∨ g ⟨0, 0⟩ ≠ none

end LM

/-- Concrete noise field for the claim C1 witness: positive exactly at the
origin. -/
def witNoise : Vec2 → Bool := fun c => decide (c = ⟨0, 0⟩)

namespace MP

/-- LandmassCell (landmass_shape.rs). -/
structure LandmassCell where
  ordering : Nat
  edge_distance : Nat
  edge : Bool
deriving DecidableEq, Repr

/-- The f32 remainder x % a used by generate_mount_points, modelled exactly
over the rationals for the nonnegative operands that occur there
(x - a * floor (x / a); for a = 0 the rational junk value x matches the
f32 result floor (x % inf) = x of the source's division by a zero count). -/
def f32Rem (x a : ℚ) : ℚ := x - a * ⌊x / a⌋

/-- generate_mount_points (landmass_shape.rs): filter the cells at the
target edge distance, sort by ordering, and keep the indexes whose
remainder modulo the adjusted stride floors to zero.  The grid iteration
is abstracted as the list of populated cells; f32 arithmetic is modelled
exactly over the rationals. -/
def generate_mount_points (cells : List (Vec2 × LandmassCell)) (distance spacing : Nat) :
    List Vec2 :=
  let points := (cells.filter (fun pc => pc.2.edge_distance == distance)).map
    (fun pc => (pc.1, pc.2.ordering))
  let mount_point_count := points.length / spacing
  let adjusted_spacing : ℚ := (points.length : ℚ) / (mount_point_count : ℚ)
  let sorted := points.mergeSort (fun a b => a.2 ≤ b.2)
  (sorted.enum.filterMap (fun ip =>
    if (⌊f32Rem (ip.1 : ℚ) adjusted_spacing⌋.toNat) = 0 then some ip.2.1 else none))

end MP

namespace BP

/-- The occupancy state of a coarse cell in generate_building_shapes. -/
inductive Value where
  | Vacant
  | Occupied (i : Nat)
deriving DecidableEq, Repr

/-- BuildingShape (landmass_shape.rs): the inclusive interior rectangle. -/
structure BuildingShape where
  edge_min : Vec2
  edge_max : Vec2
deriving DecidableEq, Repr

/-- Modelled from the spec: the external SparseGrid of occupancy values,
observably a key list (the populated positions the grid iterates over)
with a total lookup map. -/
structure SGrid where
  keys : List Vec2
  lookup : Vec2 → Option Value

/-- A cell strictly inside a building: between edge_min and edge_max
inclusive on both axes. -/
def inInterior (b : BuildingShape) (c : Vec2) : Prop :=
  b.edge_min.x ≤ c.x ∧ c.x ≤ b.edge_max.x ∧ b.edge_min.y ≤ c.y ∧ c.y ≤ b.edge_max.y

instance (b : BuildingShape) (c : Vec2) : Decidable (inInterior b c) := by
  unfold inInterior; infer_instance

/-- A cell of the 1-cell halo: in the rectangle expanded by one on each
side, but not in the interior. -/
def inHalo (b : BuildingShape) (c : Vec2) : Prop :=
  (b.edge_min.x - 1 ≤ c.x ∧ c.x ≤ b.edge_max.x + 1 ∧
   b.edge_min.y - 1 ≤ c.y ∧ c.y ≤ b.edge_max.y + 1) ∧ ¬inInterior b c

/-- The inclusive integer range lo..=hi as a list. -/
def intRange (lo hi : Int) : List Int :=
  (List.range (hi + 1 - lo).toNat).map (fun (k : Nat) => lo + (k : Int))

/-- The cells of an inclusive rectangle, x-major as in the source's nested
for loops. -/
def rectList (mn mx : Vec2) : List Vec2 :=
  (intRange mn.x mx.x).flatMap (fun x => (intRange mn.y mx.y).map (fun y => ⟨x, y⟩))

/-- The cell-by-cell walk of get_neighbor_count_if_vacant: mn and mx are
the rectangle expanded by one (so a cell on its rim is an edge cell).  An
occupied edge cell counts a neighbour; a non-vacant inner cell or an
absent edge cell terminates with None. -/
def neighborGo (g : SGrid) (mn mx : Vec2) : List Vec2 → Nat → Option Nat
  | [], acc => some acc
  | p :: ps, acc =>
    let isEdge := p.x = mn.x ∨ p.x = mx.x ∨ p.y = mn.y ∨ p.y = mx.y
    if isEdge then
      match g.lookup p with
      | some (.Occupied _) => neighborGo g mn mx ps (acc + 1)
      | none => none
      | some .Vacant => neighborGo g mn mx ps acc
    else
      match g.lookup p with
      | none => none
      | some (.Occupied _) => none
      | some .Vacant => neighborGo g mn mx ps acc

/-- get_neighbor_count_if_vacant (landmass_shape.rs): the number of
occupied cells around the building, as long as every cell inside it is
vacant and no halo cell is absent. -/
def get_neighbor_count_if_vacant (g : SGrid) (b : BuildingShape) : Option Nat :=
  let mn : Vec2 := ⟨b.edge_min.x - 1, b.edge_min.y - 1⟩
  let mx : Vec2 := ⟨b.edge_max.x + 1, b.edge_max.y + 1⟩
  neighborGo g mn mx (rectList mn mx) 0

/-- put_building_in_vacancy (landmass_shape.rs): mark every interior cell
Occupied(i).  The source panics when an interior cell is not vacant; the
model leaves such a cell unchanged, and the packing loop below only calls
this on candidates whose interior was validated vacant, where that branch
is unreachable. -/
def put_building_in_vacancy (g : SGrid) (b : BuildingShape) (i : Nat) : SGrid :=
  { g with lookup := fun c =>
      if inInterior b c then
        match g.lookup c with
        | some .Vacant => some (.Occupied i)
        | v => v
      else g.lookup c }

/-- Rust Iterator::max_by_key on (score, candidate) pairs: the last
maximal element, None on an empty list. -/
def maxByKey {β : Type} (l : List (Nat × β)) : Option (Nat × β) :=
  l.foldl (fun acc c =>
    match acc with
    | none => some c
    | some m => if m.1 ≤ c.1 then some c else some m) none

/-- MIN_BUILDING_SIZE (landmass_shape.rs). -/
def MIN_BUILDING_SIZE : Nat := 5

/-- MAX_BUILDING_SIZE (landmass_shape.rs). -/
def MAX_BUILDING_SIZE : Nat := 9

/-- Modelled from the spec: Rng::gen_range(lo..hi) for the opaque rand
collaborator, from an arbitrary draw x; its contract is a value in
lo..(hi-1), here lo + x mod (hi - lo). -/
def gen_range (lo hi x : Nat) : Nat := lo + x % (hi - lo)

/-- generate_next_building (landmass_shape.rs): draw a candidate size,
anchor a candidate rectangle at every populated cell, score the valid ones
by occupied-neighbour count, and return the best scoring candidate. -/
def generate_next_building (draw : Nat × Nat) (g : SGrid) : Option BuildingShape :=
  let size_x := gen_range MIN_BUILDING_SIZE MAX_BUILDING_SIZE draw.1
  let size_y := gen_range MIN_BUILDING_SIZE MAX_BUILDING_SIZE draw.2
  let candidates := g.keys.filterMap (fun pos =>
    let b : BuildingShape := ⟨pos, ⟨pos.x + size_x - 1, pos.y + size_y - 1⟩⟩
    (get_neighbor_count_if_vacant g b).map (fun n => (n, b)))
  (maxByKey candidates).map (fun nb => nb.2)

/-- The greedy packing loop of generate_building_shapes: place the best
candidate, mark its interior occupied, and repeat until no valid candidate
remains (or fuel runs out); rng is the stream of size draws, indexed by
the building counter. -/
def packLoop (rng : Nat → Nat × Nat) : Nat → SGrid → Nat → List BuildingShape →
    SGrid × List BuildingShape
  | 0, g, _, acc => (g, acc)
  | fuel + 1, g, i, acc =>
    match generate_next_building (rng i) g with
    | none => (g, acc)
    | some b => packLoop rng fuel (put_building_in_vacancy g b i) (i + 1) (acc ++ [b])

/-- The initial occupancy grid of generate_building_shapes: the landmass
cells with both coordinates even (ivec2_rem_euclid_2), downsampled by two,
all Vacant. -/
def initialGrid {C : Type} (cells : List (Vec2 × C)) : SGrid :=
  let keys := cells.filterMap (fun pc =>
    if pc.1.x.emod 2 = 0 ∧ pc.1.y.emod 2 = 0 then some (⟨pc.1.x / 2, pc.1.y / 2⟩ : Vec2)
    else none)
  ⟨keys, fun c => if c ∈ keys then some .Vacant else none⟩

/-- generate_building_shapes (landmass_shape.rs): run the packing loop on
the downsampled occupancy grid; the pair keeps the final working grid next
to the returned building list. -/
def generate_building_shapes {C : Type} (rng : Nat → Nat × Nat) (fuel : Nat)
    (cells : List (Vec2 × C)) : SGrid × List BuildingShape :=
  packLoop rng fuel (initialGrid cells) 0 []

end BP

/-- Concrete geometry for the Mask specialization counterexample: present
everywhere, no advertised bounding box. -/
def cexMaskGeometry : KK.MaterialGeometry Nat :=
  ⟨⟨none, fun _ => true⟩, fun _ => some 0⟩

/-- Concrete mask box for the Mask specialization counterexample: the
single cell at the origin. -/
def cexMaskBox : KK.BoundingBox3 := ⟨⟨0, 0, 0⟩, ⟨0, 0, 0⟩⟩

/-- Concrete query point for the Mask specialization counterexample: a
point outside the mask box. -/
def cexMaskPoint : Vec3 := ⟨1, 0, 0⟩

/-- Concrete witness geometry for the amended Mask claim. -/
def witMaskGeometry : KK.MaterialGeometry Nat :=
  ⟨⟨some ⟨⟨0, 0, 0⟩, ⟨4, 4, 4⟩⟩, fun _ => true⟩, fun _ => some 3⟩

/-- Concrete child for the UnionThreaded counterexample: a geometry whose
membership holds outside its advertised bounding box (the documented
LimitBounds shape of membership). -/
def cexUnionChild : Gen.MaterialGeometry Nat :=
  ⟨⟨⟨⟨0, 0, 0⟩, ⟨0, 0, 0⟩⟩, fun _ => true⟩, fun _ => some 0⟩

/-- Concrete query point for the UnionThreaded counterexample: outside the
cached union box. -/
def cexUnionPoint : Vec3 := ⟨1, 0, 0⟩

/-- Concrete box-respecting child for the amended UnionThreaded claim. -/
def witUnionChild : Gen.MaterialGeometry Nat :=
  ⟨⟨⟨⟨0, 0, 0⟩, ⟨2, 2, 2⟩⟩, fun q => Gen.BoundingBox.contains ⟨⟨0, 0, 0⟩, ⟨2, 2, 2⟩⟩ q⟩,
   fun q => if Gen.BoundingBox.contains ⟨⟨0, 0, 0⟩, ⟨2, 2, 2⟩⟩ q then some 1 else none⟩

lemma Vec2.add_def (a b : Vec2) : a + b = ⟨a.x + b.x, a.y + b.y⟩ := rfl

lemma Vec2.sub_def (a b : Vec2) : a - b = ⟨a.x - b.x, a.y - b.y⟩ := rfl

namespace KK

lemma bb2_union_comm (a b : BoundingBox2) : a.union b = b.union a := by
  simp only [BoundingBox2.union, Vec2.cmin, Vec2.cmax, BoundingBox2.mk.injEq, Vec2.mk.injEq]
  omega

lemma bb2_union_assoc (a b c : BoundingBox2) : (a.union b).union c = a.union (b.union c) := by
  simp only [BoundingBox2.union, Vec2.cmin, Vec2.cmax, BoundingBox2.mk.injEq, Vec2.mk.injEq]
  omega

lemma bb2_iw_comm (a b : BoundingBox2) : a.intersects_with b = b.intersects_with a := by
  rw [Bool.eq_iff_iff]
  simp only [BoundingBox2.intersects_with, axisOverlapping, intContains, Bool.and_eq_true,
    Bool.or_eq_true, decide_eq_true_eq]
  omega

lemma bb2_iw_self (a : BoundingBox2) (hx : a.min.x ≤ a.max.x) (hy : a.min.y ≤ a.max.y) :
    a.intersects_with a = true := by
  simp only [BoundingBox2.intersects_with, axisOverlapping, intContains, Bool.and_eq_true,
    Bool.or_eq_true, decide_eq_true_eq]
  omega

lemma bb2_intersect_comm (a b : BoundingBox2) : a.intersect b = b.intersect a := by
  unfold BoundingBox2.intersect
  rw [bb2_iw_comm]
  by_cases h : b.intersects_with a = true
  · simp only [h, if_true, Option.some.injEq, BoundingBox2.mk.injEq, Vec2.mk.injEq,
      Vec2.cmin, Vec2.cmax]
    omega
  · simp [h]

lemma bb2_intersect_self (a : BoundingBox2) (hx : a.min.x ≤ a.max.x) (hy : a.min.y ≤ a.max.y) :
    a.intersect a = some a := by
  unfold BoundingBox2.intersect
  rw [bb2_iw_self a hx hy]
  obtain ⟨⟨ax, ay⟩, ⟨bx, bz⟩⟩ := a
  simp only [if_true, Option.some.injEq, Vec2.cmin, Vec2.cmax, BoundingBox2.mk.injEq,
    Vec2.mk.injEq]
  omega

lemma bb3_union_comm (a b : BoundingBox3) : a.union b = b.union a := by
  simp only [BoundingBox3.union, Vec3.cmin, Vec3.cmax, BoundingBox3.mk.injEq, Vec3.mk.injEq]
  omega

lemma bb3_union_assoc (a b c : BoundingBox3) : (a.union b).union c = a.union (b.union c) := by
  simp only [BoundingBox3.union, Vec3.cmin, Vec3.cmax, BoundingBox3.mk.injEq, Vec3.mk.injEq]
  omega

lemma bb3_iw_comm (a b : BoundingBox3) : a.intersects_with b = b.intersects_with a := by
  rw [Bool.eq_iff_iff]
  simp only [BoundingBox3.intersects_with, axisOverlapping, intContains, Bool.and_eq_true,
    Bool.or_eq_true, decide_eq_true_eq]
  omega

lemma bb3_iw_self (a : BoundingBox3) (hx : a.min.x ≤ a.max.x) (hy : a.min.y ≤ a.max.y)
    (hz : a.min.z ≤ a.max.z) : a.intersects_with a = true := by
  simp only [BoundingBox3.intersects_with, axisOverlapping, intContains, Bool.and_eq_true,
    Bool.or_eq_true, decide_eq_true_eq]
  omega

lemma bb3_intersect_comm (a b : BoundingBox3) : a.intersect b = b.intersect a := by
  unfold BoundingBox3.intersect
  rw [bb3_iw_comm]
  by_cases h : b.intersects_with a = true
  · simp only [h, if_true, Option.some.injEq, BoundingBox3.mk.injEq, Vec3.mk.injEq,
      Vec3.cmin, Vec3.cmax]
    omega
  · simp [h]

lemma bb3_intersect_self (a : BoundingBox3) (hx : a.min.x ≤ a.max.x) (hy : a.min.y ≤ a.max.y)
    (hz : a.min.z ≤ a.max.z) : a.intersect a = some a := by
  unfold BoundingBox3.intersect
  rw [bb3_iw_self a hx hy hz]
  obtain ⟨⟨ax, ay, az⟩, ⟨bx, bz, bw⟩⟩ := a
  simp only [if_true, Option.some.injEq, Vec3.cmin, Vec3.cmax, BoundingBox3.mk.injEq,
    Vec3.mk.injEq]
  omega

end KK

/-- Claim C8: in both the 2D and the 3D box algebras, union is commutative
and associative, intersect is commutative, intersecting a box (satisfying
the constructor invariant min componentwise at most max) with itself
returns the box, and the overlap test is symmetric. -/
theorem claim_C8 (a2 b2 c2 : KK.BoundingBox2) (a3 b3 c3 : KK.BoundingBox3)
    (h2x : a2.min.x ≤ a2.max.x) (h2y : a2.min.y ≤ a2.max.y)
    (h3x : a3.min.x ≤ a3.max.x) (h3y : a3.min.y ≤ a3.max.y) (h3z : a3.min.z ≤ a3.max.z) :
    a2.union b2 = b2.union a2 ∧
    (a2.union b2).union c2 = a2.union (b2.union c2) ∧
    a2.intersect b2 = b2.intersect a2 ∧
    a2.intersect a2 = some a2 ∧
    a2.intersects_with b2 = b2.intersects_with a2 ∧
    a3.union b3 = b3.union a3 ∧
    (a3.union b3).union c3 = a3.union (b3.union c3) ∧
    a3.intersect b3 = b3.intersect a3 ∧
    a3.intersect a3 = some a3 ∧
    a3.intersects_with b3 = b3.intersects_with a3 :=
  ⟨KK.bb2_union_comm a2 b2, KK.bb2_union_assoc a2 b2 c2, KK.bb2_intersect_comm a2 b2,
   KK.bb2_intersect_self a2 h2x h2y, KK.bb2_iw_comm a2 b2,
   KK.bb3_union_comm a3 b3, KK.bb3_union_assoc a3 b3 c3, KK.bb3_intersect_comm a3 b3,
   KK.bb3_intersect_self a3 h3x h3y h3z, KK.bb3_iw_comm a3 b3⟩

/-- Concrete boxes for the claim C8 witness. -/
def wA2 : KK.BoundingBox2 := ⟨⟨0, 0⟩, ⟨2, 3⟩⟩

/-- Concrete boxes for the claim C8 witness. -/
def wB2 : KK.BoundingBox2 := ⟨⟨1, 1⟩, ⟨4, 4⟩⟩

/-- Concrete boxes for the claim C8 witness. -/
def wC2 : KK.BoundingBox2 := ⟨⟨-2, 0⟩, ⟨0, 1⟩⟩

/-- Concrete boxes for the claim C8 witness. -/
def wA3 : KK.BoundingBox3 := ⟨⟨0, 0, 0⟩, ⟨2, 3, 4⟩⟩

/-- Concrete boxes for the claim C8 witness. -/
def wB3 : KK.BoundingBox3 := ⟨⟨1, 1, 1⟩, ⟨4, 4, 4⟩⟩

/-- Concrete boxes for the claim C8 witness. -/
def wC3 : KK.BoundingBox3 := ⟨⟨-2, 0, -1⟩, ⟨0, 1, 1⟩⟩

/-- Witness for claim C8 at concrete boxes: the constructor invariant of
the boxes holds, and the algebra laws follow at those boxes. -/
theorem claim_C8_witness :
    (wA2.min.x ≤ wA2.max.x ∧ wA2.min.y ≤ wA2.max.y ∧
     wA3.min.x ≤ wA3.max.x ∧ wA3.min.y ≤ wA3.max.y ∧ wA3.min.z ≤ wA3.max.z) ∧
    (wA2.union wB2 = wB2.union wA2 ∧
     (wA2.union wB2).union wC2 = wA2.union (wB2.union wC2) ∧
     wA2.intersect wB2 = wB2.intersect wA2 ∧
     wA2.intersect wA2 = some wA2 ∧
     wA2.intersects_with wB2 = wB2.intersects_with wA2 ∧
     wA3.union wB3 = wB3.union wA3 ∧
     (wA3.union wB3).union wC3 = wA3.union (wB3.union wC3) ∧
     wA3.intersect wB3 = wB3.intersect wA3 ∧
     wA3.intersect wA3 = some wA3 ∧
     wA3.intersects_with wB3 = wB3.intersects_with wA3) :=
  ⟨by decide,
   claim_C8 wA2 wB2 wC2 wA3 wB3 wC3
     (by decide) (by decide) (by decide) (by decide) (by decide)⟩

/-- Claim C7: LimitBounds changes only the advertised bounding box,
clamping its x and y extents to the rectangle and keeping z; block_at and
block_material_at agree with the inner geometry at every point, including
points outside the rectangle. -/
theorem claim_C7 {B : Type} (g : Gen.MaterialGeometry B) (mn mx : Vec2) (p : Vec3) :
    (Gen.LimitBounds.mk g mn mx).block_at p = g.block_at p ∧
    (Gen.LimitBounds.mk g mn mx).block_material_at p = g.block_material_at p ∧
    (Gen.LimitBounds.mk g mn mx).bounding_box.min.z = g.bounding_box.min.z ∧
    (Gen.LimitBounds.mk g mn mx).bounding_box.max.z = g.bounding_box.max.z ∧
    (Gen.LimitBounds.mk g mn mx).bounding_box.min.x = Max.max g.bounding_box.min.x mn.x ∧
    (Gen.LimitBounds.mk g mn mx).bounding_box.min.y = Max.max g.bounding_box.min.y mn.y ∧
    (Gen.LimitBounds.mk g mn mx).bounding_box.max.x = Min.min g.bounding_box.max.x mx.x ∧
    (Gen.LimitBounds.mk g mn mx).bounding_box.max.y = Min.min g.bounding_box.max.y mx.y :=
  ⟨rfl, rfl, rfl, rfl, rfl, rfl, rfl, rfl⟩

/-- Claim C2 counterexample: for a geometry that is present everywhere and
the one-cell mask box at the origin, the box-specialized Mask membership
at a point outside the box disagrees with the generic path (the
specialization skips the box test entirely). -/
theorem claim_C2_counterexample :
    ¬ (KK.maskBox3BlockAt cexMaskGeometry.toGeometry cexMaskBox cexMaskPoint =
       KK.maskBlockAt cexMaskGeometry.toGeometry (KK.BoundingBox3.toGeometry cexMaskBox)
         cexMaskPoint) := by
  decide

/-- Claim C2 amended: the box-specialized Mask combinators agree with the
generic path at every point contained in the mask box (for the 2D
specialization, at every point whose x and y lie in the rectangle); this
is exactly the set of points produced by iterating the combinator's
cropped bounding box.  Outside the mask box the specializations defer to
the inner geometry unchecked. -/
theorem claim_C2_amended {B : Type} (g : KK.MaterialGeometry B) (m3 : KK.BoundingBox3)
    (m2 : KK.BoundingBox2) (p : Vec3)
    (h3 : m3.contains p = true) (h2 : m2.contains p.truncate = true) :
    KK.maskBox3BlockAt g.toGeometry m3 p =
      KK.maskBlockAt g.toGeometry (KK.BoundingBox3.toGeometry m3) p ∧
    KK.maskBox3BlockMaterialAt g m3 p =
      KK.maskBlockMaterialAt g (KK.BoundingBox3.toGeometry m3) p ∧
    KK.maskBox2BlockAt g.toGeometry m2 p =
      KK.maskBlockAt g.toGeometry (KK.BoundingBox2.toGeometry m2) p ∧
    KK.maskBox2BlockMaterialAt g m2 p =
      KK.maskBlockMaterialAt g (KK.BoundingBox2.toGeometry m2) p := by
  refine ⟨?_, ?_, ?_, ?_⟩ <;>
    simp [KK.maskBox3BlockAt, KK.maskBox2BlockAt, KK.maskBlockAt,
      KK.maskBox3BlockMaterialAt, KK.maskBox2BlockMaterialAt, KK.maskBlockMaterialAt,
      KK.BoundingBox3.toGeometry, KK.BoundingBox2.toGeometry, h3, h2]

/-- Witness for the amended claim C2 at a concrete geometry, mask boxes
and an in-box point. -/
theorem claim_C2_amended_witness :
    ((⟨⟨0, 0, 0⟩, ⟨2, 2, 2⟩⟩ : KK.BoundingBox3).contains ⟨1, 1, 1⟩ = true ∧
     (⟨⟨0, 0⟩, ⟨2, 2⟩⟩ : KK.BoundingBox2).contains (Vec3.truncate ⟨1, 1, 1⟩) = true) ∧
    (KK.maskBox3BlockAt witMaskGeometry.toGeometry ⟨⟨0, 0, 0⟩, ⟨2, 2, 2⟩⟩ ⟨1, 1, 1⟩ =
      KK.maskBlockAt witMaskGeometry.toGeometry
        (KK.BoundingBox3.toGeometry ⟨⟨0, 0, 0⟩, ⟨2, 2, 2⟩⟩) ⟨1, 1, 1⟩ ∧
     KK.maskBox3BlockMaterialAt witMaskGeometry ⟨⟨0, 0, 0⟩, ⟨2, 2, 2⟩⟩ ⟨1, 1, 1⟩ =
      KK.maskBlockMaterialAt witMaskGeometry
        (KK.BoundingBox3.toGeometry ⟨⟨0, 0, 0⟩, ⟨2, 2, 2⟩⟩) ⟨1, 1, 1⟩ ∧
     KK.maskBox2BlockAt witMaskGeometry.toGeometry ⟨⟨0, 0⟩, ⟨2, 2⟩⟩ ⟨1, 1, 1⟩ =
      KK.maskBlockAt witMaskGeometry.toGeometry
        (KK.BoundingBox2.toGeometry ⟨⟨0, 0⟩, ⟨2, 2⟩⟩) ⟨1, 1, 1⟩ ∧
     KK.maskBox2BlockMaterialAt witMaskGeometry ⟨⟨0, 0⟩, ⟨2, 2⟩⟩ ⟨1, 1, 1⟩ =
      KK.maskBlockMaterialAt witMaskGeometry
        (KK.BoundingBox2.toGeometry ⟨⟨0, 0⟩, ⟨2, 2⟩⟩) ⟨1, 1, 1⟩) :=
  ⟨⟨by decide, by decide⟩,
   claim_C2_amended witMaskGeometry ⟨⟨0, 0, 0⟩, ⟨2, 2, 2⟩⟩ ⟨⟨0, 0⟩, ⟨2, 2⟩⟩ ⟨1, 1, 1⟩
     (by decide) (by decide)⟩

/-- Claim C10: a pillar's membership is contained in its advertised
bounding box: for any height range with min_height at most max_height,
block_at implies bounding_box contains; the horizontal margin of
radius + 1 covers the disc of radius radius + 0.5 and the height range is
covered exactly. -/
theorem claim_C10 (p : Gen.Pillar) (hq : p.min_height ≤ p.max_height) (pos : Vec3)
    (hb : p.block_at pos = true) : p.bounding_box.contains pos = true := by
  simp only [Gen.Pillar.block_at, Bool.and_eq_true, decide_eq_true_eq] at hb
  obtain ⟨⟨hz1, hz2⟩, hd⟩ := hb
  have hx : -((p.radius : Int) + 1) ≤ pos.x - p.origin.x ∧
      pos.x - p.origin.x ≤ (p.radius : Int) + 1 := by
    constructor <;> nlinarith [sq_nonneg (pos.y - p.origin.y), hd]
  have hy : -((p.radius : Int) + 1) ≤ pos.y - p.origin.y ∧
      pos.y - p.origin.y ≤ (p.radius : Int) + 1 := by
    constructor <;> nlinarith [sq_nonneg (pos.x - p.origin.x), hd]
  simp only [Gen.Pillar.bounding_box, Gen.BoundingBox.new, Gen.BoundingBox.contains,
    intContains, Vec3.cmin, Vec3.cmax, Vec2.extend, Vec2.add_def, Vec2.sub_def,
    Bool.and_eq_true, decide_eq_true_eq]
  omega

/-- Witness for claim C10 at a concrete pillar and point. -/
theorem claim_C10_witness :
    ((Gen.Pillar.mk (-3) 7 ⟨10, 10⟩ 2).min_height ≤ (Gen.Pillar.mk (-3) 7 ⟨10, 10⟩ 2).max_height ∧
     (Gen.Pillar.mk (-3) 7 ⟨10, 10⟩ 2).block_at ⟨12, 11, 0⟩ = true) ∧
    (Gen.Pillar.mk (-3) 7 ⟨10, 10⟩ 2).bounding_box.contains ⟨12, 11, 0⟩ = true :=
  ⟨⟨by decide, by decide⟩,
   claim_C10 (Gen.Pillar.mk (-3) 7 ⟨10, 10⟩ 2) (by decide) ⟨12, 11, 0⟩ (by decide)⟩

namespace Gen

lemma contains_join_left (a b : BoundingBox) (p : Vec3) (h : a.contains p = true) :
    (a.join b).contains p = true := by
  simp only [BoundingBox.contains, BoundingBox.join, Vec3.cmin, Vec3.cmax, intContains,
    Bool.and_eq_true, decide_eq_true_eq] at h ⊢
  omega

lemma contains_foldl_join (bs : List BoundingBox) (b0 : BoundingBox) (p : Vec3)
    (h : b0.contains p = true ∨ ∃ b ∈ bs, b.contains p = true) :
    (bs.foldl BoundingBox.join b0).contains p = true := by
  induction bs generalizing b0 with
  | nil =>
    rcases h with h | ⟨b, hb, _⟩
    · exact h
    · exact absurd hb (List.not_mem_nil b)
  | cons c cs ih =>
    simp only [List.foldl_cons]
    apply ih
    rcases h with h | ⟨b, hb, hbp⟩
    · exact Or.inl (contains_join_left b0 c p h)
    · rcases List.mem_cons.mp hb with rfl | hb'
      · refine Or.inl ?_
        simp only [BoundingBox.contains, BoundingBox.join, Vec3.cmin, Vec3.cmax, intContains,
          Bool.and_eq_true, decide_eq_true_eq] at hbp ⊢
        omega
      · exact Or.inr ⟨b, hb', hbp⟩

end Gen

namespace Gen

lemma unionBB_contains {B : Type} (g0 : MaterialGeometry B) (rest : List (MaterialGeometry B))
    (g : MaterialGeometry B) (hg : g ∈ g0 :: rest) (p : Vec3)
    (h : g.bounding_box.contains p = true) :
    ((rest.map (fun x => x.bounding_box)).foldl BoundingBox.join g0.bounding_box).contains p
      = true := by
  apply contains_foldl_join
  rcases List.mem_cons.mp hg with rfl | hg'
  · exact Or.inl h
  · exact Or.inr ⟨g.bounding_box, List.mem_map_of_mem _ hg', h⟩

lemma unionBoundingBox_cons {B : Type} (g0 : MaterialGeometry B)
    (rest : List (MaterialGeometry B)) :
    unionBoundingBox (g0 :: rest) =
      some ((rest.map (fun x => x.bounding_box)).foldl BoundingBox.join g0.bounding_box) := by
  simp [unionBoundingBox]

end Gen

/-- Claim C3 counterexample: a single-child UnionThreaded over a geometry
whose membership extends outside its advertised bounding box (the shape of
membership LimitBounds documents) disagrees with the naive sequential
union at a point outside the cached union box: the O(1) pre-rejection
changes the result. -/
theorem claim_C3_counterexample :
    ¬ (Gen.unionThreadedBlockAt [cexUnionChild] cexUnionPoint =
       Gen.unionBlockAt [cexUnionChild] cexUnionPoint) := by
  decide

/-- Claim C3 amended: for every non-empty UnionThreaded whose children's
membership and material are contained in their advertised bounding boxes,
block_at agrees with the naive any-child disjunction and
block_material_at returns the material of the lowest-index child with a
non-absent material; under that containment the pre-rejection against the
cached union box never changes either result. -/
theorem claim_C3_amended {B : Type} (gs : List (Gen.MaterialGeometry B)) (hne : gs ≠ [])
    (hcontained : ∀ g ∈ gs, ∀ q : Vec3, g.block_at q = true → g.bounding_box.contains q = true)
    (hmat : ∀ g ∈ gs, ∀ q : Vec3, (g.block_material_at q).isSome = true →
      g.bounding_box.contains q = true)
    (pos : Vec3) :
    Gen.unionThreadedBlockAt gs pos = Gen.unionBlockAt gs pos ∧
    Gen.unionThreadedBlockMaterialAt gs pos = Gen.unionBlockMaterialAt gs pos := by
  cases gs with
  | nil => exact absurd rfl hne
  | cons g0 rest =>
    constructor
    · rw [Gen.unionThreadedBlockAt, Gen.unionBoundingBox_cons]
      cases hA : (g0 :: rest).any (fun g => g.block_at pos) with
      | true =>
        obtain ⟨g, hgmem, hgp⟩ := List.any_eq_true.mp hA
        have hc := Gen.unionBB_contains g0 rest g hgmem pos (hcontained g hgmem pos hgp)
        simp [Gen.unionBlockAt, hc, hA]
      | false =>
        simp [Gen.unionBlockAt, hA]
    · rw [Gen.unionThreadedBlockMaterialAt, Gen.unionBoundingBox_cons]
      cases hM : (g0 :: rest).findSome? (fun g => g.block_material_at pos) with
      | some v =>
        obtain ⟨g, hgmem, hgv⟩ := List.exists_of_findSome?_eq_some hM
        have hs : (g.block_material_at pos).isSome = true := by rw [hgv]; rfl
        have hc := Gen.unionBB_contains g0 rest g hgmem pos (hmat g hgmem pos hs)
        simp [Gen.unionBlockMaterialAt, hc, hM]
      | none =>
        simp only [Gen.unionBlockMaterialAt, hM]
        split <;> rfl

/-- Witness for the amended claim C3 at a concrete non-empty child list
whose membership and material respect the advertised box. -/
theorem claim_C3_witness :
    ([witUnionChild] ≠ ([] : List (Gen.MaterialGeometry Nat))) ∧
    (Gen.unionThreadedBlockAt [witUnionChild] ⟨1, 1, 1⟩ =
       Gen.unionBlockAt [witUnionChild] ⟨1, 1, 1⟩ ∧
     Gen.unionThreadedBlockMaterialAt [witUnionChild] ⟨1, 1, 1⟩ =
       Gen.unionBlockMaterialAt [witUnionChild] ⟨1, 1, 1⟩) :=
  ⟨List.cons_ne_nil _ _,
   claim_C3_amended [witUnionChild] (List.cons_ne_nil _ _)
     (by
       intro g hg q hq
       rw [List.mem_singleton] at hg
       subst hg
       exact hq)
     (by
       intro g hg q hq
       rw [List.mem_singleton] at hg
       subst hg
       by_cases hc : Gen.BoundingBox.contains ⟨⟨0, 0, 0⟩, ⟨2, 2, 2⟩⟩ q = true
       · exact hc
       · exact absurd hq (by simp [witUnionChild, Option.isSome, hc]))
     ⟨1, 1, 1⟩⟩

namespace SG

variable {T : Type}

lemma pcb_columns (n : Nat) (g : Grid T) :
    (applyN Grid.push_columns_back n g).columns = g.columns + n := by
  induction n generalizing g with
  | zero => rfl
  | succ n ih =>
    show (applyN Grid.push_columns_back n g.push_columns_back).columns = _
    rw [ih]
    simp [Grid.push_columns_back]
    omega

lemma pcb_height (n : Nat) (g : Grid T) :
    (applyN Grid.push_columns_back n g).rows.length = g.rows.length := by
  induction n generalizing g with
  | zero => rfl
  | succ n ih =>
    show (applyN Grid.push_columns_back n g.push_columns_back).rows.length = _
    rw [ih]
    simp [Grid.push_columns_back]

lemma pcb_offset (n : Nat) (g : Grid T) :
    (applyN Grid.push_columns_back n g).offset = g.offset := by
  induction n generalizing g with
  | zero => rfl
  | succ n ih =>
    show (applyN Grid.push_columns_back n g.push_columns_back).offset = _
    rw [ih]
    rfl

lemma pcf_columns (n : Nat) (g : Grid T) :
    (applyN Grid.push_columns_front n g).columns = g.columns + n := by
  induction n generalizing g with
  | zero => rfl
  | succ n ih =>
    show (applyN Grid.push_columns_front n g.push_columns_front).columns = _
    rw [ih]
    simp [Grid.push_columns_front]
    omega

lemma pcf_height (n : Nat) (g : Grid T) :
    (applyN Grid.push_columns_front n g).rows.length = g.rows.length := by
  induction n generalizing g with
  | zero => rfl
  | succ n ih =>
    show (applyN Grid.push_columns_front n g.push_columns_front).rows.length = _
    rw [ih]
    simp [Grid.push_columns_front]

lemma pcf_offset (n : Nat) (g : Grid T) :
    (applyN Grid.push_columns_front n g).offset = ⟨g.offset.x - n, g.offset.y⟩ := by
  induction n generalizing g with
  | zero =>
    show g.offset = _
    cases h : g.offset with
    | mk a b => simp [h]
  | succ n ih =>
    show (applyN Grid.push_columns_front n g.push_columns_front).offset = _
    rw [ih]
    simp [Grid.push_columns_front, Vec2.mk.injEq]
    omega

lemma prb_columns (n : Nat) (g : Grid T) :
    (applyN Grid.push_rows_back n g).columns = g.columns := by
  induction n generalizing g with
  | zero => rfl
  | succ n ih =>
    show (applyN Grid.push_rows_back n g.push_rows_back).columns = _
    rw [ih]
    rfl

lemma prb_height (n : Nat) (g : Grid T) :
    (applyN Grid.push_rows_back n g).rows.length = g.rows.length + n := by
  induction n generalizing g with
  | zero => rfl
  | succ n ih =>
    show (applyN Grid.push_rows_back n g.push_rows_back).rows.length = _
    rw [ih]
    simp [Grid.push_rows_back]
    omega

lemma prb_offset (n : Nat) (g : Grid T) :
    (applyN Grid.push_rows_back n g).offset = g.offset := by
  induction n generalizing g with
  | zero => rfl
  | succ n ih =>
    show (applyN Grid.push_rows_back n g.push_rows_back).offset = _
    rw [ih]
    rfl

lemma prf_columns (n : Nat) (g : Grid T) :
    (applyN Grid.push_rows_front n g).columns = g.columns := by
  induction n generalizing g with
  | zero => rfl
  | succ n ih =>
    show (applyN Grid.push_rows_front n g.push_rows_front).columns = _
    rw [ih]
    rfl

lemma prf_height (n : Nat) (g : Grid T) :
    (applyN Grid.push_rows_front n g).rows.length = g.rows.length + n := by
  induction n generalizing g with
  | zero => rfl
  | succ n ih =>
    show (applyN Grid.push_rows_front n g.push_rows_front).rows.length = _
    rw [ih]
    simp [Grid.push_rows_front]
    omega

lemma prf_offset (n : Nat) (g : Grid T) :
    (applyN Grid.push_rows_front n g).offset = ⟨g.offset.x, g.offset.y - n⟩ := by
  induction n generalizing g with
  | zero =>
    show g.offset = _
    cases h : g.offset with
    | mk a b => simp [h]
  | succ n ih =>
    show (applyN Grid.push_rows_front n g.push_rows_front).offset = _
    rw [ih]
    simp [Grid.push_rows_front, Vec2.mk.injEq]
    omega

end SG

namespace SG

variable {T : Type}

lemma expand_props (g : Grid T) (p : Vec2) :
    (g.expand_to_include p).offset.x = Min.min g.offset.x p.x ∧
    (g.expand_to_include p).offset.y = Min.min g.offset.y p.y ∧
    ((g.expand_to_include p).columns : Int) + (g.expand_to_include p).offset.x
      = Max.max ((g.columns : Int) + g.offset.x) (p.x + 1) ∧
    ((g.expand_to_include p).rows.length : Int) + (g.expand_to_include p).offset.y
      = Max.max ((g.rows.length : Int) + g.offset.y) (p.y + 1) := by
  simp only [Grid.expand_to_include, Grid.oob, Grid.width, Grid.height]
  split_ifs <;>
    simp_all only [pcb_columns, pcb_height, pcb_offset, pcf_columns, pcf_height, pcf_offset,
      prb_columns, prb_height, prb_offset, prf_columns, prf_height, prf_offset,
      not_lt, gt_iff_lt] <;>
    omega

end SG

namespace SG

variable {T : Type}

lemma wf_applyN (f : Grid T → Grid T) (hf : ∀ g, g.WF → (f g).WF) :
    ∀ (n : Nat) (g : Grid T), g.WF → (applyN f n g).WF := by
  intro n
  induction n with
  | zero => intro g hg; exact hg
  | succ n ih => intro g hg; exact ih (f g) (hf g hg)

lemma wf_pcb (g : Grid T) (h : g.WF) : g.push_columns_back.WF := by
  intro row hrow
  simp only [Grid.push_columns_back, List.mem_map] at hrow ⊢
  obtain ⟨r, hr, rfl⟩ := hrow
  simp [h r hr]

lemma wf_pcf (g : Grid T) (h : g.WF) : g.push_columns_front.WF := by
  intro row hrow
  simp only [Grid.push_columns_front, List.mem_map] at hrow ⊢
  obtain ⟨r, hr, rfl⟩ := hrow
  simp [h r hr]

lemma wf_prb (g : Grid T) (h : g.WF) : g.push_rows_back.WF := by
  intro row hrow
  simp only [Grid.push_rows_back, List.mem_append, List.mem_singleton] at hrow ⊢
  rcases hrow with hr | rfl
  · exact h row hr
  · simp [Grid.width]

lemma wf_prf (g : Grid T) (h : g.WF) : g.push_rows_front.WF := by
  intro row hrow
  simp only [Grid.push_rows_front, List.mem_cons] at hrow ⊢
  rcases hrow with rfl | hr
  · simp [Grid.width]
  · exact h row hr

lemma wf_expand (g : Grid T) (p : Vec2) (h : g.WF) : (g.expand_to_include p).WF := by
  simp only [Grid.expand_to_include, Grid.oob, Grid.width, Grid.height]
  split_ifs <;>
    first
      | exact wf_applyN _ wf_prb _ _ (wf_applyN _ wf_pcb _ _ h)
      | exact wf_applyN _ wf_prb _ _ (wf_applyN _ wf_pcf _ _ h)
      | exact wf_applyN _ wf_prb _ _ h
      | exact wf_applyN _ wf_prf _ _ (wf_applyN _ wf_pcb _ _ h)
      | exact wf_applyN _ wf_prf _ _ (wf_applyN _ wf_pcf _ _ h)
      | exact wf_applyN _ wf_prf _ _ h
      | exact wf_applyN _ wf_pcb _ _ h
      | exact wf_applyN _ wf_pcf _ _ h
      | exact h

lemma pos_some (g : Grid T) (p : Vec2)
    (h1 : g.offset.x ≤ p.x) (h2 : p.x < (g.columns : Int) + g.offset.x)
    (h3 : g.offset.y ≤ p.y) (h4 : p.y < (g.rows.length : Int) + g.offset.y) :
    g.pos p = some ((p.x - g.offset.x).toNat, (p.y - g.offset.y).toNat) := by
  simp only [Grid.pos, Grid.width, Grid.height]
  split_ifs with h h'
  · exfalso; omega
  · rfl
  · exfalso; omega

lemma pos_none (g : Grid T) (p : Vec2)
    (h : ¬(g.min.x ≤ p.x ∧ p.x ≤ g.max.x ∧ g.min.y ≤ p.y ∧ p.y ≤ g.max.y)) :
    g.pos p = none := by
  simp only [Grid.min, Grid.max, Grid.width, Grid.height] at h
  simp only [Grid.pos, Grid.width, Grid.height]
  split_ifs with h1 h2
  · rfl
  · exfalso; omega
  · rfl

lemma get_after_setCell (g : Grid T) (hwf : g.WF) (x y : Nat)
    (hx : x < g.columns) (hy : y < g.rows.length) (v : T) :
    (((setCell g.rows x y v).get? y).bind (fun row => row.get? x)).join = some v := by
  unfold setCell
  obtain ⟨row, hr⟩ : ∃ row, g.rows.get? y = some row := by
    cases h : g.rows.get? y with
    | none => exact absurd (List.get?_eq_none.mp h) (by omega)
    | some r => exact ⟨r, rfl⟩
  have hlen : row.length = g.columns := hwf row (List.get?_mem hr)
  obtain ⟨a, ha⟩ : ∃ a, row.get? x = some a := by
    cases h : row.get? x with
    | none => exact absurd (List.get?_eq_none.mp h) (by omega)
    | some r => exact ⟨r, rfl⟩
  rw [List.get?_set_eq, hr]
  simp only [Option.getD_some, Option.some_bind, Option.map_some]
  rw [List.get?_set_eq, ha]
  rfl

end SG

namespace SG

variable {T : Type}

lemma put_expand_eq (g : Grid T) (p : Vec2) (v : T) :
    g.put_expand p v =
      { g.expand_to_include p with
        rows := setCell (g.expand_to_include p).rows
          (p.x - (g.expand_to_include p).offset.x).toNat
          (p.y - (g.expand_to_include p).offset.y).toNat v } := by
  obtain ⟨e1, e2, e3, e4⟩ := expand_props g p
  have hpos := pos_some (g.expand_to_include p) p (by omega) (by omega) (by omega) (by omega)
  simp only [Grid.put_expand]
  rw [hpos]

lemma put_expand_shape (g : Grid T) (p : Vec2) (v : T) :
    (g.put_expand p v).offset = (g.expand_to_include p).offset ∧
    (g.put_expand p v).columns = (g.expand_to_include p).columns ∧
    (g.put_expand p v).rows.length = (g.expand_to_include p).rows.length := by
  rw [put_expand_eq]
  refine ⟨rfl, rfl, ?_⟩
  simp [setCell]

lemma wf_setCell (g : Grid T) (h : g.WF) (x y : Nat) (v : T) :
    ∀ row ∈ setCell g.rows x y v, row.length = g.columns := by
  intro row hrow
  unfold setCell at hrow
  by_cases hy : y < g.rows.length
  · rcases List.mem_or_eq_of_mem_set hrow with hr | rfl
    · exact h row hr
    · obtain ⟨r, hg⟩ : ∃ r, g.rows.get? y = some r := by
        cases hgg : g.rows.get? y with
        | none => exact absurd (List.get?_eq_none.mp hgg) (by omega)
        | some r => exact ⟨r, rfl⟩
      have := h r (List.get?_mem hg)
      rw [List.get?_eq_getElem?] at hg
      simp [hg, this]
  · rw [List.set_eq_of_length_le (by omega)] at hrow
    exact h row hrow

lemma put_expand_get (g : Grid T) (hwf : g.WF) (p : Vec2) (v : T) :
    (g.put_expand p v).get p = some v := by
  obtain ⟨e1, e2, e3, e4⟩ := expand_props g p
  have hwfe := wf_expand g p hwf
  rw [put_expand_eq]
  unfold Grid.get
  have hpos : Grid.pos
      { g.expand_to_include p with
        rows := setCell (g.expand_to_include p).rows
          (p.x - (g.expand_to_include p).offset.x).toNat
          (p.y - (g.expand_to_include p).offset.y).toNat v } p =
      some ((p.x - (g.expand_to_include p).offset.x).toNat,
        (p.y - (g.expand_to_include p).offset.y).toNat) := by
    apply pos_some <;> simp [setCell] <;> omega
  rw [hpos]
  exact get_after_setCell (g.expand_to_include p) hwfe _ _ (by omega) (by omega) v

lemma wf_put_expand (g : Grid T) (hwf : g.WF) (p : Vec2) (v : T) :
    (g.put_expand p v).WF := by
  rw [put_expand_eq]
  intro row hrow
  exact wf_setCell (g.expand_to_include p) (wf_expand g p hwf) _ _ v row hrow

lemma put_expand_min_max (g : Grid T) (p : Vec2) (v : T) :
    (g.put_expand p v).min.x = Min.min g.min.x p.x ∧
    (g.put_expand p v).min.y = Min.min g.min.y p.y ∧
    (g.put_expand p v).max.x = Max.max g.max.x p.x ∧
    (g.put_expand p v).max.y = Max.max g.max.y p.y := by
  obtain ⟨s1, s2, s3⟩ := put_expand_shape g p v
  obtain ⟨e1, e2, e3, e4⟩ := expand_props g p
  simp only [Grid.min, Grid.max, Grid.width, Grid.height, s1, s2, s3]
  omega

lemma put_expand_all_mono (ws : List (Vec2 × T)) : ∀ (g : Grid T),
    (g.put_expand_all ws).min.x ≤ g.min.x ∧ (g.put_expand_all ws).min.y ≤ g.min.y ∧
    g.max.x ≤ (g.put_expand_all ws).max.x ∧ g.max.y ≤ (g.put_expand_all ws).max.y := by
  induction ws with
  | nil => intro g; simp [Grid.put_expand_all]
  | cons w ws ih =>
    intro g
    have hstep := put_expand_min_max g w.1 w.2
    have htail := ih (g.put_expand w.1 w.2)
    simp only [Grid.put_expand_all, List.foldl_cons] at htail ⊢
    omega

end SG

/-- Claim C4: put_expand followed by get at the same coordinate returns
the written value (on a well-formed grid window); the bounds only grow:
after the write min is componentwise at most its previous value and the
coordinate, max is componentwise at least its previous value and the
coordinate, and no sequence of writes ever shrinks the interval from min
to max. -/
theorem claim_C4 {T : Type} (g : SG.Grid T) (c : Vec2) (v : T) (hwf : g.WF) :
    (g.put_expand c v).get c = some v ∧
    (g.put_expand c v).min.x ≤ g.min.x ∧ (g.put_expand c v).min.x ≤ c.x ∧
    (g.put_expand c v).min.y ≤ g.min.y ∧ (g.put_expand c v).min.y ≤ c.y ∧
    g.max.x ≤ (g.put_expand c v).max.x ∧ c.x ≤ (g.put_expand c v).max.x ∧
    g.max.y ≤ (g.put_expand c v).max.y ∧ c.y ≤ (g.put_expand c v).max.y ∧
    ∀ ws : List (Vec2 × T),
      (g.put_expand_all ws).min.x ≤ g.min.x ∧ (g.put_expand_all ws).min.y ≤ g.min.y ∧
      g.max.x ≤ (g.put_expand_all ws).max.x ∧ g.max.y ≤ (g.put_expand_all ws).max.y := by
  have hget := SG.put_expand_get g hwf c v
  have hmm := SG.put_expand_min_max g c v
  refine ⟨hget, by omega, by omega, by omega, by omega, by omega, by omega, by omega, by omega,
    fun ws => SG.put_expand_all_mono ws g⟩

/-- Witness for claim C4: a fresh grid, a coordinate outside it, and a
written value. -/
theorem claim_C4_witness :
    (SG.Grid.new Nat).WF ∧
    (((SG.Grid.new Nat).put_expand ⟨-1, 2⟩ 7).get ⟨-1, 2⟩ = some 7 ∧
     ((SG.Grid.new Nat).put_expand ⟨-1, 2⟩ 7).min.x ≤ (SG.Grid.new Nat).min.x ∧
     ((SG.Grid.new Nat).put_expand ⟨-1, 2⟩ 7).min.x ≤ (-1 : Int) ∧
     ((SG.Grid.new Nat).put_expand ⟨-1, 2⟩ 7).min.y ≤ (SG.Grid.new Nat).min.y ∧
     ((SG.Grid.new Nat).put_expand ⟨-1, 2⟩ 7).min.y ≤ (2 : Int) ∧
     (SG.Grid.new Nat).max.x ≤ ((SG.Grid.new Nat).put_expand ⟨-1, 2⟩ 7).max.x ∧
     (-1 : Int) ≤ ((SG.Grid.new Nat).put_expand ⟨-1, 2⟩ 7).max.x ∧
     (SG.Grid.new Nat).max.y ≤ ((SG.Grid.new Nat).put_expand ⟨-1, 2⟩ 7).max.y ∧
     (2 : Int) ≤ ((SG.Grid.new Nat).put_expand ⟨-1, 2⟩ 7).max.y ∧
     ∀ ws : List (Vec2 × Nat),
       (((SG.Grid.new Nat).put_expand_all ws)).min.x ≤ (SG.Grid.new Nat).min.x ∧
       (((SG.Grid.new Nat).put_expand_all ws)).min.y ≤ (SG.Grid.new Nat).min.y ∧
       (SG.Grid.new Nat).max.x ≤ (((SG.Grid.new Nat).put_expand_all ws)).max.x ∧
       (SG.Grid.new Nat).max.y ≤ (((SG.Grid.new Nat).put_expand_all ws)).max.y) :=
  ⟨by decide, claim_C4 (SG.Grid.new Nat) ⟨-1, 2⟩ 7 (by decide)⟩

/-- Claim C9: the non-expanding put is atomic on failure: at a position
outside the current bounds it returns false and leaves the grid entirely
unchanged, and at a position inside the bounds (on a well-formed window)
it returns true and a subsequent get at that position returns the written
value. -/
theorem claim_C9 {T : Type} (g : SG.Grid T) (p : Vec2) (v : T) (hwf : g.WF) :
    ((g.min.x ≤ p.x ∧ p.x ≤ g.max.x ∧ g.min.y ≤ p.y ∧ p.y ≤ g.max.y) →
      (g.put p v).1 = true ∧ ((g.put p v).2).get p = some v) ∧
    (¬(g.min.x ≤ p.x ∧ p.x ≤ g.max.x ∧ g.min.y ≤ p.y ∧ p.y ≤ g.max.y) →
      (g.put p v).1 = false ∧ (g.put p v).2 = g) := by
  constructor
  · intro h
    simp only [SG.Grid.min, SG.Grid.max, SG.Grid.width, SG.Grid.height] at h
    have hpos := SG.pos_some g p (by omega) (by omega) (by omega) (by omega)
    simp only [SG.Grid.put, hpos]
    refine ⟨by trivial, ?_⟩
    unfold SG.Grid.get
    have hpos' : SG.Grid.pos
        { g with rows := SG.setCell g.rows (p.x - g.offset.x).toNat (p.y - g.offset.y).toNat v }
        p = some ((p.x - g.offset.x).toNat, (p.y - g.offset.y).toNat) := by
      apply SG.pos_some <;> simp [SG.setCell] <;> omega
    rw [hpos']
    exact SG.get_after_setCell g hwf _ _ (by omega) (by omega) v
  · intro h
    have hpos := SG.pos_none g p h
    simp only [SG.Grid.put, hpos]
    exact ⟨by trivial, by trivial⟩

/-- Witness for claim C9 on a fresh well-formed grid: the in-bounds write
at the origin succeeds and reads back, and the out-of-bounds write at
x = 5 fails and changes nothing. -/
theorem claim_C9_witness :
    (SG.Grid.new Nat).WF ∧
    ((((SG.Grid.new Nat).min.x ≤ (0 : Int) ∧ (0 : Int) ≤ (SG.Grid.new Nat).max.x ∧
       (SG.Grid.new Nat).min.y ≤ (0 : Int) ∧ (0 : Int) ≤ (SG.Grid.new Nat).max.y) →
      ((SG.Grid.new Nat).put ⟨0, 0⟩ 4).1 = true ∧
      (((SG.Grid.new Nat).put ⟨0, 0⟩ 4).2).get ⟨0, 0⟩ = some 4) ∧
     (¬((SG.Grid.new Nat).min.x ≤ (5 : Int) ∧ (5 : Int) ≤ (SG.Grid.new Nat).max.x ∧
        (SG.Grid.new Nat).min.y ≤ (0 : Int) ∧ (0 : Int) ≤ (SG.Grid.new Nat).max.y) →
      ((SG.Grid.new Nat).put ⟨5, 0⟩ 4).1 = false ∧
      ((SG.Grid.new Nat).put ⟨5, 0⟩ 4).2 = SG.Grid.new Nat)) :=
  ⟨by decide,
   (claim_C9 (SG.Grid.new Nat) ⟨0, 0⟩ 4 (by decide)).1,
   (claim_C9 (SG.Grid.new Nat) ⟨5, 0⟩ 4 (by decide)).2⟩

namespace MP

lemma f32Rem_nonneg (x a : ℚ) (hx : 0 ≤ x) (ha : 0 ≤ a) : 0 ≤ f32Rem x a := by
  unfold f32Rem
  rcases eq_or_lt_of_le ha with rfl | ha'
  · simpa using hx
  · have h1 : (⌊x / a⌋ : ℚ) ≤ x / a := Int.floor_le _
    have h2 : a * (⌊x / a⌋ : ℚ) ≤ a * (x / a) := by
      exact mul_le_mul_of_nonneg_left h1 ha
    have h3 : a * (x / a) = x := by
      field_simp
    linarith

lemma keep_iff (x a : ℚ) : (⌊f32Rem x a⌋.toNat = 0) ↔ f32Rem x a < 1 := by
  rw [Int.toNat_eq_zero]
  constructor
  · intro h
    have := Int.lt_floor_add_one (f32Rem x a)
    have hcast : (⌊f32Rem x a⌋ : ℚ) ≤ 0 := by exact_mod_cast h
    linarith
  · intro h
    have : ⌊f32Rem x a⌋ < 1 := by
      rw [Int.floor_lt]
      exact_mod_cast h
    omega

lemma chain_count {P : Nat → Bool} {K : Nat → Int}
    (hmono : ∀ i j, i < j → P i = true → P j = true → K i < K j) :
    ∀ (l : List Nat), l.Pairwise (· < ·) →
    ∀ (lo M : Int), (∀ i ∈ l, P i = true → lo ≤ K i ∧ K i < M) →
    (l.filter P).length ≤ (M - lo).toNat := by
  intro l
  induction l with
  | nil => intro _ lo M _; simp
  | cons a l ih =>
    intro hpw lo M hb
    have hpw' := List.pairwise_cons.mp hpw
    cases hP : P a with
    | false =>
      simp only [List.filter_cons, hP, if_false]
      exact ih hpw'.2 lo M (fun i hi h => hb i (List.mem_cons_of_mem _ hi) h)
    | true =>
      simp only [List.filter_cons, hP, if_true]
      have hKa := hb a (List.mem_cons_self a l) hP
      have htail := ih hpw'.2 (K a + 1) M (by
        intro i hi hPi
        have hai : a < i := hpw'.1 i hi
        have h1 := hmono a i hai hP hPi
        have h2 := hb i (List.mem_cons_of_mem _ hi) hPi
        omega)
      simp only [List.length_cons]
      omega

lemma enumFrom_snd_mem {α : Type _} :
    ∀ (l : List α) (k : Nat) (ip : Nat × α), ip ∈ List.enumFrom k l → ip.2 ∈ l := by
  intro l
  induction l with
  | nil => intro k ip h; exact absurd h (List.not_mem_nil ip)
  | cons a l ih =>
    intro k ip h
    rcases List.mem_cons.mp h with rfl | h'
    · exact List.mem_cons_self a l
    · exact List.mem_cons_of_mem a (ih (k + 1) ip h')

lemma mount_length (A : ℚ) : ∀ (l : List (Vec2 × Nat)) (k : Nat),
    ((List.enumFrom k l).filterMap
      (fun ip => if (⌊f32Rem (ip.1 : ℚ) A⌋.toNat) = 0 then some ip.2.1 else none)).length =
    ((List.range' k l.length).filter
      (fun (i : Nat) => decide ((⌊f32Rem (i : ℚ) A⌋.toNat) = 0))).length := by
  intro l
  induction l with
  | nil => intro k; rfl
  | cons a l ih =>
    intro k
    show (List.filterMap _ ((k, a) :: List.enumFrom (k + 1) l)).length = _
    have hr : List.range' k (a :: l).length = k :: List.range' (k + 1) l.length :=
      List.range'_succ k l.length 1
    rw [hr, List.filter_cons]
    by_cases hk : (⌊f32Rem (k : ℚ) A⌋.toNat) = 0
    · rw [@List.filterMap_cons_some _ _
          (fun ip => if (⌊f32Rem (ip.1 : ℚ) A⌋.toNat) = 0 then some ip.2.1 else none)
          (k, a) (List.enumFrom (k + 1) l) a.1 (if_pos hk), if_pos (by simpa using hk)]
      simp only [List.length_cons]
      rw [ih (k + 1)]
    · rw [@List.filterMap_cons_none _ _
          (fun ip => if (⌊f32Rem (ip.1 : ℚ) A⌋.toNat) = 0 then some ip.2.1 else none)
          (k, a) (List.enumFrom (k + 1) l) (if_neg hk), if_neg (by simpa using hk)]
      exact ih (k + 1)

end MP

namespace MP

lemma nodup_const_length {l : List Nat} (hnd : l.Nodup) (c : Nat) (h : ∀ x ∈ l, x = c) :
    l.length ≤ 1 := by
  match l with
  | [] => simp
  | [a] => simp
  | a :: b :: t =>
    exfalso
    have ha := h a (List.mem_cons_self _ _)
    have hb := h b (List.mem_cons_of_mem _ (List.mem_cons_self _ _))
    have := List.pairwise_cons.mp hnd
    exact this.1 b (List.mem_cons_self _ _) (ha.trans hb.symm)

lemma mount_count_bound (n spacing : Nat) :
    ((List.range' 0 n).filter
      (fun (i : Nat) =>
        decide ((⌊f32Rem (i : ℚ) ((n : ℚ) / ((n / spacing : Nat) : ℚ))⌋.toNat) = 0))).length
      ≤ n / spacing + 1 := by
  by_cases hm0 : n / spacing = 0
  · rw [List.filter_congr (q := fun (i : Nat) => decide (i = 0)) ?hq]
    case hq =>
      intro i hi
      have hA : ((n : ℚ) / ((n / spacing : Nat) : ℚ)) = 0 := by
        rw [hm0]
        simp
      rw [hA]
      have hrem : f32Rem (i : ℚ) 0 = (i : ℚ) := by
        unfold f32Rem
        simp
      rw [hrem]
      have hfl : ⌊(i : ℚ)⌋ = (i : Int) := Int.floor_natCast i
      rw [hfl]
      rw [decide_eq_decide]
      omega
    have hle := nodup_const_length
      (List.Nodup.filter (fun (i : Nat) => decide (i = 0)) (List.nodup_range' 0 n)) 0 (by
        intro x hx
        have := (List.mem_filter.mp hx).2
        simpa using this)
    omega
  · set m := n / spacing with hmdef
    have hn0 : n ≠ 0 := by
      intro h
      rw [h] at hmdef
      simp [Nat.zero_div] at hmdef
      exact hm0 hmdef
    have hmQ : ((m : Nat) : ℚ) ≠ 0 := Nat.cast_ne_zero.mpr hm0
    set A : ℚ := (n : ℚ) / ((m : Nat) : ℚ) with hAdef
    have hA_pos : 0 < A := by
      apply div_pos
      · exact_mod_cast Nat.pos_of_ne_zero hn0
      · exact_mod_cast Nat.pos_of_ne_zero hm0
    have hA_eq : A * (m : ℚ) = (n : ℚ) := by
      rw [hAdef]
      exact div_mul_cancel₀ _ hmQ
    have hchain := chain_count
      (P := fun (i : Nat) => decide ((⌊f32Rem (i : ℚ) A⌋.toNat) = 0))
      (K := fun (i : Nat) => ⌊(i : ℚ) / A⌋)
      ?hmono (List.range' 0 n) (List.pairwise_lt_range' 0 n) 0 (m : Int) ?hbound
    case hmono =>
      intro i j hij hPi hPj
      simp only [decide_eq_true_eq] at hPi hPj
      rw [keep_iff] at hPi hPj
      have hle : ⌊(i : ℚ) / A⌋ ≤ ⌊(j : ℚ) / A⌋ := by
        apply Int.floor_le_floor
        apply (div_le_div_right hA_pos).mpr
        exact_mod_cast hij.le
      by_contra hcon
      have heq : ⌊(i : ℚ) / A⌋ = ⌊(j : ℚ) / A⌋ := le_antisymm hle (not_lt.mp hcon)
      have h1 : 0 ≤ f32Rem (i : ℚ) A := f32Rem_nonneg _ _ (by positivity) hA_pos.le
      unfold f32Rem at h1 hPj
      rw [heq] at h1
      have hij' : (i : ℚ) + 1 ≤ (j : ℚ) := by exact_mod_cast hij
      linarith
    case hbound =>
      intro i hi hPi
      have hin : i < n := by
        obtain ⟨k, hk, rfl⟩ := List.mem_range'.mp hi
        omega
      constructor
      · exact Int.floor_nonneg.mpr (by positivity)
      · rw [Int.floor_lt]
        push_cast
        rw [div_lt_iff hA_pos, mul_comm, hA_eq]
        exact_mod_cast hin
    refine le_trans hchain ?_
    have hmz : (((m : Nat) : Int) - 0).toNat = m := by simp
    rw [hmz]
    exact Nat.le_succ m

end MP

/-- Claim C6: generate_mount_points returns only positions whose landmass
cell has edge_distance equal to the target distance, and at most
count / spacing + 1 positions, where count is the number of cells at that
edge distance. -/
theorem claim_C6 (cells : List (Vec2 × MP.LandmassCell)) (distance spacing : Nat) :
    (∀ p ∈ MP.generate_mount_points cells distance spacing,
      ∃ cell, (p, cell) ∈ cells ∧ cell.edge_distance = distance) ∧
    (MP.generate_mount_points cells distance spacing).length ≤
      (cells.filter (fun pc => pc.2.edge_distance == distance)).length / spacing + 1 := by
  constructor
  · intro p hp
    simp only [MP.generate_mount_points] at hp
    rw [List.mem_filterMap] at hp
    obtain ⟨ip, hip, hcond⟩ := hp
    have hp2 : ip.2.1 = p := by
      by_cases hc : (⌊MP.f32Rem (ip.1 : ℚ)
          ((((cells.filter (fun pc => pc.2.edge_distance == distance)).map
            (fun pc => (pc.1, pc.2.ordering))).length : ℚ) /
           ((((cells.filter (fun pc => pc.2.edge_distance == distance)).map
            (fun pc => (pc.1, pc.2.ordering))).length / spacing : Nat) : ℚ))⌋.toNat) = 0
      · rw [if_pos hc] at hcond
        exact Option.some.inj hcond
      · rw [if_neg hc] at hcond
        exact absurd hcond (by simp)
    rw [List.enum_eq_enumFrom] at hip
    have hsnd := MP.enumFrom_snd_mem _ 0 ip hip
    have hmem := (List.mergeSort_perm
      ((cells.filter (fun pc => pc.2.edge_distance == distance)).map
        (fun pc => (pc.1, pc.2.ordering))) _).mem_iff.mp hsnd
    rw [List.mem_map] at hmem
    obtain ⟨pc, hpc, hpceq⟩ := hmem
    obtain ⟨hcells, hpred⟩ := List.mem_filter.mp hpc
    have hpc1 : pc.1 = p := by
      have : (pc.1, pc.2.ordering).1 = ip.2.1 := by rw [hpceq]
      simpa [hp2] using this
    refine ⟨pc.2, ?_, by simpa using hpred⟩
    have : (pc.1, pc.2) = pc := rfl
    rw [← hpc1]
    rw [this]
    exact hcells
  · simp only [MP.generate_mount_points]
    rw [List.enum_eq_enumFrom, MP.mount_length]
    rw [List.length_mergeSort]
    have hb := MP.mount_count_bound
      (((cells.filter (fun pc => pc.2.edge_distance == distance)).map
        (fun pc => (pc.1, pc.2.ordering))).length) spacing
    rw [List.length_map] at hb ⊢
    exact hb

namespace BP

lemma intRange_mem (lo hi k : Int) : k ∈ intRange lo hi ↔ lo ≤ k ∧ k ≤ hi := by
  unfold intRange
  rw [List.mem_map]
  constructor
  · rintro ⟨j, hj, rfl⟩
    rw [List.mem_range] at hj
    omega
  · intro h
    refine ⟨(k - lo).toNat, ?_, by omega⟩
    rw [List.mem_range]
    omega

lemma rectList_mem (mn mx : Vec2) (c : Vec2) :
    c ∈ rectList mn mx ↔ mn.x ≤ c.x ∧ c.x ≤ mx.x ∧ mn.y ≤ c.y ∧ c.y ≤ mx.y := by
  simp only [rectList, List.mem_flatMap, List.mem_map]
  constructor
  · rintro ⟨x, hx, y, hy, rfl⟩
    rw [intRange_mem] at hx
    rw [intRange_mem] at hy
    exact ⟨hx.1, hx.2, hy.1, hy.2⟩
  · intro h
    refine ⟨c.x, ?_, c.y, ?_, rfl⟩
    · rw [intRange_mem]; omega
    · rw [intRange_mem]; omega

lemma neighborGo_some (g : SGrid) (mn mx : Vec2) :
    ∀ (l : List Vec2) (acc n : Nat), neighborGo g mn mx l acc = some n →
    ∀ p ∈ l, ((p.x = mn.x ∨ p.x = mx.x ∨ p.y = mn.y ∨ p.y = mx.y) → g.lookup p ≠ none) ∧
      (¬(p.x = mn.x ∨ p.x = mx.x ∨ p.y = mn.y ∨ p.y = mx.y) → g.lookup p = some .Vacant) := by
  intro l
  induction l with
  | nil => intro acc n h p hp; exact absurd hp (List.not_mem_nil p)
  | cons q ps ih =>
    intro acc n h p hp
    simp only [neighborGo] at h
    by_cases hedge : (q.x = mn.x ∨ q.x = mx.x ∨ q.y = mn.y ∨ q.y = mx.y)
    · rw [if_pos hedge] at h
      cases hl : g.lookup q with
      | none => rw [hl] at h; simp at h
      | some v =>
        cases v with
        | Vacant =>
          rw [hl] at h
          rcases List.mem_cons.mp hp with rfl | hp'
          · exact ⟨fun _ => by simp [hl], fun hne => absurd hedge hne⟩
          · exact ih acc n h p hp'
        | Occupied j =>
          rw [hl] at h
          rcases List.mem_cons.mp hp with rfl | hp'
          · exact ⟨fun _ => by simp [hl], fun hne => absurd hedge hne⟩
          · exact ih (acc + 1) n h p hp'
    · rw [if_neg hedge] at h
      cases hl : g.lookup q with
      | none => rw [hl] at h; simp at h
      | some v =>
        cases v with
        | Vacant =>
          rw [hl] at h
          rcases List.mem_cons.mp hp with rfl | hp'
          · exact ⟨fun he => absurd he hedge, fun _ => hl⟩
          · exact ih acc n h p hp'
        | Occupied j => rw [hl] at h; simp at h

lemma gncv_some (g : SGrid) (b : BuildingShape) (n : Nat)
    (h : get_neighbor_count_if_vacant g b = some n) :
    (∀ c, inInterior b c → g.lookup c = some .Vacant) ∧
    (∀ c, inHalo b c → g.lookup c ≠ none) := by
  unfold get_neighbor_count_if_vacant at h
  constructor
  · intro c hc
    unfold inInterior at hc
    have hmem : c ∈ rectList ⟨b.edge_min.x - 1, b.edge_min.y - 1⟩
        ⟨b.edge_max.x + 1, b.edge_max.y + 1⟩ := by
      rw [rectList_mem]
      dsimp only
      omega
    have hgo := (neighborGo_some g _ _ _ 0 n h c hmem).2
    apply hgo
    dsimp only
    omega
  · intro c hc
    unfold inHalo inInterior at hc
    have hmem : c ∈ rectList ⟨b.edge_min.x - 1, b.edge_min.y - 1⟩
        ⟨b.edge_max.x + 1, b.edge_max.y + 1⟩ := by
      rw [rectList_mem]
      dsimp only
      omega
    have hgo := (neighborGo_some g _ _ _ 0 n h c hmem).1
    apply hgo
    dsimp only
    omega

end BP

namespace BP

lemma put_keeps_domain (g : SGrid) (b : BuildingShape) (i : Nat) (c : Vec2) :
    ((put_building_in_vacancy g b i).lookup c).isSome = (g.lookup c).isSome := by
  unfold put_building_in_vacancy
  dsimp only
  by_cases hc : inInterior b c
  · rw [if_pos hc]
    cases hv : g.lookup c with
    | none => simp
    | some v => cases v <;> simp
  · rw [if_neg hc]

lemma put_keeps_occupied (g : SGrid) (b : BuildingShape) (i : Nat) (c : Vec2) (j : Nat)
    (h : g.lookup c = some (.Occupied j)) :
    (put_building_in_vacancy g b i).lookup c = some (.Occupied j) := by
  unfold put_building_in_vacancy
  dsimp only
  by_cases hc : inInterior b c
  · rw [if_pos hc, h]
  · rw [if_neg hc, h]

lemma put_sets_interior (g : SGrid) (b : BuildingShape) (i : Nat) (c : Vec2)
    (hc : inInterior b c) (hv : g.lookup c = some .Vacant) :
    (put_building_in_vacancy g b i).lookup c = some (.Occupied i) := by
  unfold put_building_in_vacancy
  dsimp only
  rw [if_pos hc, hv]

lemma maxByKey_fold_mem {β : Type} (l : List (Nat × β)) :
    ∀ (acc : Option (Nat × β)) (x : Nat × β),
    l.foldl (fun acc c =>
      match acc with
      | none => some c
      | some m => if m.1 ≤ c.1 then some c else some m) acc = some x →
    acc = some x ∨ x ∈ l := by
  induction l with
  | nil => intro acc x h; exact Or.inl h
  | cons c cs ih =>
    intro acc x h
    rcases ih _ x h with hstep | hmem
    · cases acc with
      | none =>
        cases Option.some.inj hstep
        exact Or.inr (List.mem_cons_self _ _)
      | some m =>
        replace hstep : (if m.1 ≤ c.1 then some c else some m) = some x := hstep
        by_cases hle : m.1 ≤ c.1
        · rw [if_pos hle] at hstep
          cases Option.some.inj hstep
          exact Or.inr (List.mem_cons_self _ _)
        · rw [if_neg hle] at hstep
          exact Or.inl hstep
    · exact Or.inr (List.mem_cons_of_mem _ hmem)

end BP

namespace BP

lemma gnb_valid (draw : Nat × Nat) (g : SGrid) (b : BuildingShape)
    (h : generate_next_building draw g = some b) :
    ∃ n, get_neighbor_count_if_vacant g b = some n := by
  unfold generate_next_building at h
  rw [Option.map_eq_some'] at h
  obtain ⟨nb, hmax, hnb⟩ := h
  rcases maxByKey_fold_mem _ none nb hmax with hacc | hmem
  · cases hacc
  · rw [List.mem_filterMap] at hmem
    obtain ⟨pos, _, hcand⟩ := hmem
    rw [Option.map_eq_some'] at hcand
    obtain ⟨n, hn, hpair⟩ := hcand
    refine ⟨n, ?_⟩
    have hb : b = ⟨pos, ⟨pos.x + (gen_range MIN_BUILDING_SIZE MAX_BUILDING_SIZE draw.1 : Nat)
        - 1, pos.y + (gen_range MIN_BUILDING_SIZE MAX_BUILDING_SIZE draw.2 : Nat) - 1⟩⟩ := by
      rw [← hnb, ← hpair]
    rw [hb]
    exact hn

/-- Pairwise-disjointness of two building interiors. -/
def DisjointInteriors (b1 b2 : BuildingShape) : Prop :=
  ∀ c, ¬(inInterior b1 c ∧ inInterior b2 c)

lemma packLoop_inv (rng : Nat → Nat × Nat) :
    ∀ (fuel : Nat) (g : SGrid) (i : Nat) (acc : List BuildingShape),
    acc.Pairwise DisjointInteriors →
    (∀ b ∈ acc, ∀ c, inInterior b c → ∃ j, g.lookup c = some (.Occupied j)) →
    (∀ b ∈ acc, ∀ c, inHalo b c → g.lookup c ≠ none) →
    (packLoop rng fuel g i acc).2.Pairwise DisjointInteriors ∧
    (∀ b ∈ (packLoop rng fuel g i acc).2, ∀ c, inHalo b c →
      (packLoop rng fuel g i acc).1.lookup c ≠ none) := by
  intro fuel
  induction fuel with
  | zero => intro g i acc h1 h2 h3; exact ⟨h1, h3⟩
  | succ fuel ih =>
    intro g i acc h1 h2 h3
    have hstep : packLoop rng (fuel + 1) g i acc =
        (match generate_next_building (rng i) g with
          | none => (g, acc)
          | some b => packLoop rng fuel (put_building_in_vacancy g b i) (i + 1)
              (acc ++ [b])) := rfl
    rw [hstep]
    cases hnext : generate_next_building (rng i) g with
    | none => exact ⟨h1, h3⟩
    | some b =>
      obtain ⟨n, hn⟩ := gnb_valid (rng i) g b hnext
      obtain ⟨hvac, hhalo⟩ := gncv_some g b n hn
      refine ih (put_building_in_vacancy g b i) (i + 1) (acc ++ [b]) ?_ ?_ ?_
      · rw [List.pairwise_append]
        refine ⟨h1, List.pairwise_singleton _ _, ?_⟩
        intro b' hb' b'' hb''
        rw [List.mem_singleton] at hb''
        subst hb''
        intro c hc
        obtain ⟨hcb', hcb⟩ := hc
        obtain ⟨j, hj⟩ := h2 b' hb' c hcb'
        rw [hvac c hcb] at hj
        simp at hj
      · intro b' hb' c hc
        rcases List.mem_append.mp hb' with hmem | hmem
        · obtain ⟨j, hj⟩ := h2 b' hmem c hc
          exact ⟨j, put_keeps_occupied g b i c j hj⟩
        · rw [List.mem_singleton] at hmem
          rw [hmem] at hc
          exact ⟨i, put_sets_interior g b i c hc (hvac c hc)⟩
      · intro b' hb' c hc
        have hdom := put_keeps_domain g b i c
        rcases List.mem_append.mp hb' with hmem | hmem
        · have hne := h3 b' hmem c hc
          intro hnone
          apply hne
          cases hgl : g.lookup c with
          | none => rfl
          | some v =>
            rw [hnone, hgl] at hdom
            simp at hdom
        · rw [List.mem_singleton] at hmem
          rw [hmem] at hc
          have hne := hhalo c hc
          intro hnone
          apply hne
          cases hgl : g.lookup c with
          | none => rfl
          | some v =>
            rw [hnone, hgl] at hdom
            simp at hdom

end BP

/-- Claim C5: throughout the greedy building-packing loop, the interiors
of any two distinct placed buildings are disjoint, and every cell of the
1-cell halo of every placed building lies on a populated cell of the
working occupancy grid (a candidate whose halo touches an absent cell is
never placed, and populated cells never become absent). -/
theorem claim_C5 {C : Type} (rng : Nat → Nat × Nat) (fuel : Nat) (cells : List (Vec2 × C)) :
    (BP.generate_building_shapes rng fuel cells).2.Pairwise BP.DisjointInteriors ∧
    (∀ b ∈ (BP.generate_building_shapes rng fuel cells).2, ∀ c, BP.inHalo b c →
      (BP.generate_building_shapes rng fuel cells).1.lookup c ≠ none) := by
  unfold BP.generate_building_shapes
  exact BP.packLoop_inv rng fuel (BP.initialGrid cells) 0 [] (List.Pairwise.nil)
    (fun b hb => absurd hb (List.not_mem_nil b))
    (fun b hb => absurd hb (List.not_mem_nil b))

lemma cardinal4_symm (c d : Vec2) : d ∈ cardinal4 c ↔ c ∈ cardinal4 d := by
  cases c with
  | mk cx cy =>
    cases d with
    | mk dx dy =>
      simp only [cardinal4, List.mem_cons, List.mem_singleton, List.not_mem_nil, or_false,
        Vec2.mk.injEq]
      omega

namespace LM

lemma put_self (g : SparseMap) (pos : Vec2) (v : Value) : (g.put pos v) pos = some v := by
  simp [SparseMap.put]

lemma put_other (g : SparseMap) (pos : Vec2) (v : Value) (c : Vec2) (h : c ≠ pos) :
    (g.put pos v) c = g c := by
  simp [SparseMap.put, h]

lemma mem_enqueue (g : SparseMap) (cs : List Vec2) : ∀ (q : List Vec2) (c : Vec2),
    c ∈ enqueue g q cs ↔ c ∈ q ∨ (c ∈ cs ∧ g c = none) := by
  induction cs with
  | nil => intro q c; simp [enqueue]
  | cons a cs ih =>
    intro q c
    show c ∈ enqueue g (if g a = none ∧ a ∉ q then q ++ [a] else q) cs ↔ _
    rw [ih]
    by_cases ha : (g a = none ∧ a ∉ q)
    · rw [if_pos ha]
      rw [List.mem_append, List.mem_singleton, List.mem_cons]
      constructor
      · rintro ((h | rfl) | ⟨h1, h2⟩)
        · exact Or.inl h
        · exact Or.inr ⟨Or.inl rfl, ha.1⟩
        · exact Or.inr ⟨Or.inr h1, h2⟩
      · rintro (h | ⟨(rfl | h1), h2⟩)
        · exact Or.inl (Or.inl h)
        · exact Or.inl (Or.inr rfl)
        · exact Or.inr ⟨h1, h2⟩
    · rw [if_neg ha]
      rw [List.mem_cons]
      constructor
      · rintro (h | ⟨h1, h2⟩)
        · exact Or.inl h
        · exact Or.inr ⟨Or.inr h1, h2⟩
      · rintro (h | ⟨(rfl | h1), h2⟩)
        · exact Or.inl h
        · rcases Decidable.not_and_iff_or_not.mp ha with h' | h'
          · exact absurd h2 h'
          · exact Or.inl (Decidable.not_not.mp h')
        · exact Or.inr ⟨h1, h2⟩

lemma nodup_enqueue (g : SparseMap) (cs : List Vec2) : ∀ (q : List Vec2), q.Nodup →
    (enqueue g q cs).Nodup := by
  induction cs with
  | nil => intro q h; exact h
  | cons a cs ih =>
    intro q h
    show (enqueue g (if g a = none ∧ a ∉ q then q ++ [a] else q) cs).Nodup
    by_cases ha : (g a = none ∧ a ∉ q)
    · rw [if_pos ha]
      apply ih
      rw [List.nodup_append]
      exact ⟨h, List.nodup_singleton a, by
        intro x hx hx'
        rw [List.mem_singleton] at hx'
        subst hx'
        exact ha.2 hx⟩
    · rw [if_neg ha]
      exact ih q h

end LM

namespace LM

lemma step_present (f : Vec2 → Bool) (pos : Vec2) (rest : List Vec2) (g : SparseMap)
    (hinv : Inv f (pos :: rest) g) (hf : f pos = true) :
    Inv f (enqueue (g.put pos .Present) rest (cardinal4 pos)) (g.put pos .Present) := by
  obtain ⟨hnd, hfresh, hsrc, hpres, hbnd, hnofin, hclosed, horig⟩ := hinv
  have hgpos : g pos = none := hfresh pos (List.mem_cons_self _ _)
  have hndr : rest.Nodup := (List.nodup_cons.mp hnd).2
  have hposnr : pos ∉ rest := (List.nodup_cons.mp hnd).1
  have hpres_mono : ∀ c, g c = some .Present → (g.put pos .Present) c = some .Present := by
    intro c hc
    by_cases h : c = pos
    · rw [h]; exact put_self g pos .Present
    · rw [put_other g pos .Present c h]; exact hc
  have hnn_mono : ∀ c, g c ≠ none → (g.put pos .Present) c ≠ none := by
    intro c hc
    by_cases h : c = pos
    · subst h; rw [put_self]; simp
    · rw [put_other g pos .Present c h]; exact hc
  refine ⟨?_, ?_, ?_, ?_, ?_, ?_, ?_, ?_⟩
  · exact nodup_enqueue _ _ rest hndr
  · intro c hc
    rw [mem_enqueue] at hc
    rcases hc with hc | ⟨_, hc2⟩
    · have hcpos : c ≠ pos := fun h => hposnr (h ▸ hc)
      rw [put_other g pos .Present c hcpos]
      exact hfresh c (List.mem_cons_of_mem _ hc)
    · exact hc2
  · intro c hc
    rw [mem_enqueue] at hc
    rcases hc with hc | ⟨hc1, _⟩
    · rcases hsrc c (List.mem_cons_of_mem _ hc) with h | ⟨d, hd1, hd2⟩
      · exact Or.inl h
      · exact Or.inr ⟨d, hd1, hpres_mono d hd2⟩
    · exact Or.inr ⟨pos, hc1, put_self g pos .Present⟩
  · intro c hc
    by_cases h : c = pos
    · subst h
      rcases hsrc c (List.mem_cons_self _ _) with h0 | ⟨d, hd1, hd2⟩
      · rw [h0]; exact ReachPos.origin (h0 ▸ hf)
      · exact ReachPos.step (hpres d hd2) hd1 hf
    · rw [put_other g pos .Present c h] at hc
      exact hpres c hc
  · intro c hc
    by_cases h : c = pos
    · subst h
      rw [put_self] at hc
      simp at hc
    · rw [put_other g pos .Present c h] at hc
      obtain ⟨hfc, hrest⟩ := hbnd c hc
      refine ⟨hfc, ?_⟩
      rcases hrest with ⟨d, hd1, hd2⟩ | h0
      · exact Or.inl ⟨d, hd1, hpres_mono d hd2⟩
      · exact Or.inr h0
  · intro c i
    by_cases h : c = pos
    · subst h; rw [put_self]; simp
    · rw [put_other g pos .Present c h]; exact hnofin c i
  · intro c hc d hd
    by_cases h : c = pos
    · by_cases hdg : (g.put pos .Present) d = none
      · right
        rw [mem_enqueue]
        exact Or.inr ⟨h ▸ hd, hdg⟩
      · left; exact hdg
    · rw [put_other g pos .Present c h] at hc
      rcases hclosed c hc d hd with hne | hmem
      · left; exact hnn_mono d hne
      · rcases List.mem_cons.mp hmem with rfl | hmem'
        · left; rw [put_self]; simp
        · right; rw [mem_enqueue]; exact Or.inl hmem'
  · by_cases h : (⟨0, 0⟩ : Vec2) = pos
    · right; rw [h, put_self]; simp
    · rcases horig with hin | hne
      · rcases List.mem_cons.mp hin with h0 | h0
        · exact absurd h0 h
        · left; rw [mem_enqueue]; exact Or.inl h0
      · right; exact hnn_mono _ hne

lemma step_boundary (f : Vec2 → Bool) (pos : Vec2) (rest : List Vec2) (g : SparseMap)
    (hinv : Inv f (pos :: rest) g) (hf : f pos = false) :
    Inv f rest (g.put pos .Boundary) := by
  obtain ⟨hnd, hfresh, hsrc, hpres, hbnd, hnofin, hclosed, horig⟩ := hinv
  have hgpos : g pos = none := hfresh pos (List.mem_cons_self _ _)
  have hndr : rest.Nodup := (List.nodup_cons.mp hnd).2
  have hposnr : pos ∉ rest := (List.nodup_cons.mp hnd).1
  have hpres_mono : ∀ c, g c = some .Present → (g.put pos .Boundary) c = some .Present := by
    intro c hc
    have h : c ≠ pos := by
      intro h
      rw [h, hgpos] at hc
      cases hc
    rw [put_other g pos .Boundary c h]
    exact hc
  have hnn_mono : ∀ c, g c ≠ none → (g.put pos .Boundary) c ≠ none := by
    intro c hc
    by_cases h : c = pos
    · subst h; rw [put_self]; simp
    · rw [put_other g pos .Boundary c h]; exact hc
  refine ⟨hndr, ?_, ?_, ?_, ?_, ?_, ?_, ?_⟩
  · intro c hc
    have hcpos : c ≠ pos := fun h => hposnr (h ▸ hc)
    rw [put_other g pos .Boundary c hcpos]
    exact hfresh c (List.mem_cons_of_mem _ hc)
  · intro c hc
    rcases hsrc c (List.mem_cons_of_mem _ hc) with h | ⟨d, hd1, hd2⟩
    · exact Or.inl h
    · exact Or.inr ⟨d, hd1, hpres_mono d hd2⟩
  · intro c hc
    by_cases h : c = pos
    · subst h
      rw [put_self] at hc
      simp at hc
    · rw [put_other g pos .Boundary c h] at hc
      exact hpres c hc
  · intro c hc
    by_cases h : c = pos
    · subst h
      refine ⟨hf, ?_⟩
      rcases hsrc c (List.mem_cons_self _ _) with h0 | ⟨d, hd1, hd2⟩
      · exact Or.inr h0
      · exact Or.inl ⟨d, (cardinal4_symm d c).mp hd1, hpres_mono d hd2⟩
    · rw [put_other g pos .Boundary c h] at hc
      obtain ⟨hfc, hrest⟩ := hbnd c hc
      refine ⟨hfc, ?_⟩
      rcases hrest with ⟨d, hd1, hd2⟩ | h0
      · exact Or.inl ⟨d, hd1, hpres_mono d hd2⟩
      · exact Or.inr h0
  · intro c i
    by_cases h : c = pos
    · subst h; rw [put_self]; simp
    · rw [put_other g pos .Boundary c h]; exact hnofin c i
  · intro c hc d hd
    have h : c ≠ pos := by
      intro h
      rw [h, put_self] at hc
      simp at hc
    rw [put_other g pos .Boundary c h] at hc
    rcases hclosed c hc d hd with hne | hmem
    · left; exact hnn_mono d hne
    · rcases List.mem_cons.mp hmem with rfl | hmem'
      · left; rw [put_self]; simp
      · right; exact hmem'
  · by_cases h : (⟨0, 0⟩ : Vec2) = pos
    · right; rw [h, put_self]; simp
    · rcases horig with hin | hne
      · rcases List.mem_cons.mp hin with h0 | h0
        · exact absurd h0 h
        · left; exact h0
      · right; exact hnn_mono _ hne

end LM

namespace LM

lemma bfs_inv (f : Vec2 → Bool) : ∀ (fuel : Nat) (q : List Vec2) (g : SparseMap),
    Inv f q g → Inv f (bfs f fuel q g).2 (bfs f fuel q g).1 := by
  intro fuel
  induction fuel with
  | zero => intro q g h; exact h
  | succ fuel ih =>
    intro q g h
    cases q with
    | nil => exact h
    | cons pos rest =>
      by_cases hf : f pos = true
      · have heq : bfs f (fuel + 1) (pos :: rest) g =
            bfs f fuel (enqueue (g.put pos .Present) rest (cardinal4 pos))
              (g.put pos .Present) := by
          simp [bfs, hf]
        rw [heq]
        exact ih _ _ (step_present f pos rest g h hf)
      · rw [Bool.not_eq_true] at hf
        have heq : bfs f (fuel + 1) (pos :: rest) g =
            bfs f fuel rest (g.put pos .Boundary) := by
          simp [bfs, hf]
        rw [heq]
        exact ih _ _ (step_boundary f pos rest g h hf)

lemma inv_init (f : Vec2 → Bool) : Inv f [⟨0, 0⟩] SparseMap.empty := by
  refine ⟨List.nodup_singleton _, ?_, ?_, ?_, ?_, ?_, ?_, Or.inl (List.mem_singleton.mpr rfl)⟩
  · intro c _; rfl
  · intro c hc
    rw [List.mem_singleton] at hc
    exact Or.inl hc
  · intro c hc; exact absurd hc (by simp [SparseMap.empty])
  · intro c hc; exact absurd hc (by simp [SparseMap.empty])
  · intro c i; simp [SparseMap.empty]
  · intro c hc; exact absurd hc (by simp [SparseMap.empty])

lemma reachPos_true {f : Vec2 → Bool} {c : Vec2} (h : ReachPos f c) : f c = true := by
  cases h with
  | origin h0 => exact h0
  | step _ _ h3 => exact h3

end LM

/-- Claim C1: in phase 1 of landmass discovery, assuming the field is
positive at the origin and the flood fill drains its queue within the
given fuel (the claim's finiteness assumption), the resulting grid marks
a cell Present iff the field is positive there and the cell is reachable
from the origin through a 4-connected path of positive cells; it marks a
cell Boundary iff the field is non-positive there and the cell is
4-adjacent to some Present cell (or is the origin); and no other cell is
assigned a value. -/
theorem claim_C1 (f : Vec2 → Bool) (fuel : Nat) (hf : f ⟨0, 0⟩ = true)
    (hterm : (LM.bfs f fuel [⟨0, 0⟩] LM.SparseMap.empty).2 = []) :
    (∀ c, (LM.bfs f fuel [⟨0, 0⟩] LM.SparseMap.empty).1 c = some .Present ↔
      (f c = true ∧ LM.ReachPos f c)) ∧
    (∀ c, (LM.bfs f fuel [⟨0, 0⟩] LM.SparseMap.empty).1 c = some .Boundary ↔
      (f c = false ∧ ((∃ d, d ∈ cardinal4 c ∧
        (LM.bfs f fuel [⟨0, 0⟩] LM.SparseMap.empty).1 d = some .Present) ∨
        c = (⟨0, 0⟩ : Vec2)))) ∧
    (∀ c, (LM.bfs f fuel [⟨0, 0⟩] LM.SparseMap.empty).1 c ≠ none →
      ((LM.bfs f fuel [⟨0, 0⟩] LM.SparseMap.empty).1 c = some .Present ∨
       (LM.bfs f fuel [⟨0, 0⟩] LM.SparseMap.empty).1 c = some .Boundary)) := by
  have hinv := LM.bfs_inv f fuel [⟨0, 0⟩] LM.SparseMap.empty (LM.inv_init f)
  rw [hterm] at hinv
  obtain ⟨_, _, _, hpres, hbnd, hnofin, hclosed, horig⟩ := hinv
  have horigG : (LM.bfs f fuel [⟨0, 0⟩] LM.SparseMap.empty).1 ⟨0, 0⟩ ≠ none := by
    rcases horig with h | h
    · exact absurd h (List.not_mem_nil _)
    · exact h
  have hPB : ∀ c, (LM.bfs f fuel [⟨0, 0⟩] LM.SparseMap.empty).1 c ≠ none →
      ((LM.bfs f fuel [⟨0, 0⟩] LM.SparseMap.empty).1 c = some .Present ∨
       (LM.bfs f fuel [⟨0, 0⟩] LM.SparseMap.empty).1 c = some .Boundary) := by
    intro c hc
    cases hgc : (LM.bfs f fuel [⟨0, 0⟩] LM.SparseMap.empty).1 c with
    | none => exact absurd hgc hc
    | some v =>
      cases v with
      | Present => exact Or.inl rfl
      | Boundary => exact Or.inr rfl
      | BoundaryFinal i => exact absurd hgc (hnofin c i)
  have horigPresent : (LM.bfs f fuel [⟨0, 0⟩] LM.SparseMap.empty).1 ⟨0, 0⟩ =
      some .Present := by
    rcases hPB _ horigG with h | h
    · exact h
    · have hb := (hbnd _ h).1
      rw [hf] at hb
      cases hb
  have hreach : ∀ c, LM.ReachPos f c →
      (LM.bfs f fuel [⟨0, 0⟩] LM.SparseMap.empty).1 c = some .Present := by
    intro c hr
    induction hr with
    | origin h0 => exact horigPresent
    | step h1 h2 h3 ih =>
      rcases hclosed _ ih _ h2 with hne | hmem
      · rcases hPB _ hne with h | h
        · exact h
        · have hb := (hbnd _ h).1
          rw [h3] at hb
          cases hb
      · exact absurd hmem (List.not_mem_nil _)
  refine ⟨?_, ?_, hPB⟩
  · intro c
    constructor
    · intro hc
      have hr := hpres c hc
      exact ⟨LM.reachPos_true hr, hr⟩
    · rintro ⟨_, hr⟩
      exact hreach c hr
  · intro c
    constructor
    · intro hc
      obtain ⟨hfc, hrest⟩ := hbnd c hc
      exact ⟨hfc, hrest⟩
    · rintro ⟨hfc, hrest⟩
      rcases hrest with ⟨d, hd1, hd2⟩ | rfl
      · rcases hclosed d hd2 c ((cardinal4_symm c d).mp hd1) with hne | hmem
        · rcases hPB c hne with h | h
          · have := LM.reachPos_true (hpres c h)
            rw [hfc] at this
            cases this
          · exact h
        · exact absurd hmem (List.not_mem_nil _)
      · rw [hf] at hfc
        cases hfc

/-- Witness for claim C1: the field positive exactly at the origin, whose
flood fill drains its queue within 16 pops. -/
theorem claim_C1_witness :
    (witNoise ⟨0, 0⟩ = true ∧ (LM.bfs witNoise 16 [⟨0, 0⟩] LM.SparseMap.empty).2 = []) ∧
    ((∀ c, (LM.bfs witNoise 16 [⟨0, 0⟩] LM.SparseMap.empty).1 c = some .Present ↔
      (witNoise c = true ∧ LM.ReachPos witNoise c)) ∧
    (∀ c, (LM.bfs witNoise 16 [⟨0, 0⟩] LM.SparseMap.empty).1 c = some .Boundary ↔
      (witNoise c = false ∧ ((∃ d, d ∈ cardinal4 c ∧
        (LM.bfs witNoise 16 [⟨0, 0⟩] LM.SparseMap.empty).1 d = some .Present) ∨
        c = (⟨0, 0⟩ : Vec2)))) ∧
    (∀ c, (LM.bfs witNoise 16 [⟨0, 0⟩] LM.SparseMap.empty).1 c ≠ none →
      ((LM.bfs witNoise 16 [⟨0, 0⟩] LM.SparseMap.empty).1 c = some .Present ∨
       (LM.bfs witNoise 16 [⟨0, 0⟩] LM.SparseMap.empty).1 c = some .Boundary))) :=
  ⟨⟨by decide, by decide⟩, claim_C1 witNoise 16 (by decide) (by decide)⟩
